import Mathlib

/-!
Verification of the paygent pipeline core.

This file gives a shallow embedding of the pieces of the paygent
repository that its specification makes claims about:

* the Spend Ledger (`src/paygent/src/services/spending.ts`, class
  `SpendingTracker`),
* the bounded History Log of the REST server (`addToHistory`),
* the Plan Builder (`src/paygent/src/agent/planner.ts`, class
  `TaskPlanner` with its AI, pattern-heuristic and keyword tiers),
* the Pipeline Orchestrator (`src/paygent/src/agent/orchestrator.ts`,
  `TaskOrchestrator.executePipeline`, `executeStep`,
  `interpolateVariables`, `compileFinalOutput`).

JavaScript `bigint` values are modelled as `Int`, wall-clock
timestamps as `Nat` (with the start of the current day passed in as a
`todayStart` parameter), and JSON payloads as the inductive `Json`
type below.  External effects (the payment provider, the AI
completion call) are passed in as explicit inputs, so every universal
theorem quantifies over all of their possible behaviours.
-/

namespace Paygent

/-! ## Basic string helpers

The TypeScript code compares lower-cased strings with
`String.prototype.includes` (substring test).  We model strings as
their character lists.  `lowerStr` models `toLowerCase`, and
`subOccurs pat s` models `s.includes(pat)`. -/

def lowerStr (s : String) : String := ⟨s.data.map Char.toLower⟩

/-- `startsWithChars pat s` is true when `pat` occurs at the front of `s`. -/
def startsWithChars : List Char → List Char → Bool
  | [], _ => true
  | _ :: _, [] => false
  | a :: as, b :: bs => a == b && startsWithChars as bs

/-- `subOccurs pat s` models the JavaScript substring test `s.includes(pat)`. -/
def subOccurs (pat : List Char) : List Char → Bool
  | [] => pat.isEmpty
  | c :: rest => startsWithChars pat (c :: rest) || subOccurs pat rest

/-- `includesStr s sub` models `s.includes(sub)` on whole strings. -/
def includesStr (s sub : String) : Bool := subOccurs sub.data s.data

/-! ## JSON values

Payloads threaded between pipeline steps are arbitrary JSON values in
the source (`requestData?: any`, step outputs).  Numbers are modelled
as integers; the payloads exercised by the repository (prices, texts)
are integral. -/

inductive Json where
  | null : Json
  | bool (b : Bool) : Json
  | num (n : Int) : Json
  | str (s : String) : Json
  | arr (items : List Json) : Json
  | obj (fields : List (String × Json)) : Json
  deriving Repr

/-- JavaScript truthiness on JSON values: `null`, `false`, `0` and the
empty string are falsy, everything else (including `[]` and objects)
is truthy.  Used wherever the source tests a payload with `if (x)` or
`!data`. -/
def jsonFalsy : Json → Bool
  | .null => true
  | .bool b => !b
  | .num n => n == 0
  | .str s => s.isEmpty
  | .arr _ => false
  | .obj _ => false

/-! ## JSON.stringify

`interpolateVariables` substitutes `JSON.stringify(value)` for a
placeholder.  We implement the stringifier for our `Json` model:
string escaping as JSON.stringify performs it (quote, backslash and
control characters), integers in decimal, arrays and objects with no
extra whitespace, object fields in insertion order. -/

def hexDigit (n : Nat) : Char :=
  if n < 10 then Char.ofNat (48 + n) else Char.ofNat (87 + n)

def escapeJsonChar (c : Char) : List Char :=
  if c == '"' then ['\\', '"']
  else if c == '\\' then ['\\', '\\']
  else if c == Char.ofNat 8 then ['\\', 'b']
  else if c == Char.ofNat 9 then ['\\', 't']
  else if c == Char.ofNat 10 then ['\\', 'n']
  else if c == Char.ofNat 12 then ['\\', 'f']
  else if c == Char.ofNat 13 then ['\\', 'r']
  else if c.toNat < 32 then
    ['\\', 'u', '0', '0', hexDigit (c.toNat / 16), hexDigit (c.toNat % 16)]
  else [c]

def quoteJsonString (s : String) : List Char :=
  '"' :: (s.data.flatMap escapeJsonChar) ++ ['"']

def joinComma : List (List Char) → List Char
  | [] => []
  | [x] => x
  | x :: y :: rest => x ++ ',' :: joinComma (y :: rest)

mutual
/-- Model of `JSON.stringify` restricted to the `Json` type. -/
def stringifyJson : Json → List Char
  | .null => "null".data
  | .bool true => "true".data
  | .bool false => "false".data
  | .num n => (toString n).data
  | .str s => quoteJsonString s
  | .arr xs => '[' :: joinComma (stringifyList xs) ++ [']']
  | .obj fs => '{' :: joinComma (stringifyFields fs) ++ ['}']
def stringifyList : List Json → List (List Char)
  | [] => []
  | x :: xs => stringifyJson x :: stringifyList xs
def stringifyFields : List (String × Json) → List (List Char)
  | [] => []
  | (k, v) :: rest => (quoteJsonString k ++ ':' :: stringifyJson v) :: stringifyFields rest
end

def stringify (j : Json) : String := ⟨stringifyJson j⟩

/-! ## Variable interpolation

`TaskOrchestrator.interpolateVariables` (orchestrator.ts lines
257-282) replaces every occurrence of a `\x7b\x7bname\x7d\x7d`
placeholder inside string payloads by
`JSON.stringify(variables[name])` when `name` is a defined variable
and leaves the placeholder text in place otherwise, recursing through
arrays and object values.  The regular expression used by the source
is `/\\\x7b\\\x7b(\w+)\\\x7d\\\x7d/g`: two opening braces, a nonempty
greedy run of word characters, two closing braces, scanned left to
right without overlap.

The scanner below is written with an explicit fuel argument (the
length of the input suffices) so that it is structurally recursive
and evaluates by kernel reduction. -/

/-- Word characters of the regex class `\w`: ASCII letters, digits and
underscore. -/
def isWordChar (c : Char) : Bool := c.isAlphanum || c == '_'

/-- The variable environment `context.variables`: name-value pairs,
looked up by first match. -/
abbrev Vars : Type := List (String × Json)

def lookupVar (vars : Vars) (k : String) : Option Json :=
  List.lookup k vars

/-- After the two opening braces have been consumed, split off a
nonempty maximal word-character run followed by two closing braces.
Returns the run and the remainder after the closing braces. -/
def scanPH (s : List Char) : Option (List Char × List Char) :=
  let w := s.takeWhile isWordChar
  match s.dropWhile isWordChar with
  | '}' :: '}' :: rest => if w.isEmpty then none else some (w, rest)
  | _ => none

/-- The text of a placeholder for name `w`: two opening braces, the
name, two closing braces. -/
def phText (w : List Char) : List Char :=
  '{' :: '{' :: w ++ '}' :: '}' :: []

/-- The replacement the source substitutes for a matched placeholder:
`JSON.stringify(variables[key])` when the variable is defined, the
placeholder text itself otherwise. -/
def substFor (vars : Vars) (w : List Char) : List Char :=
  match lookupVar vars (String.mk w) with
  | some v => stringifyJson v
  | none => phText w

/-- Try to read a full placeholder at the current position: the
current character and the following one must both be opening braces
and `scanPH` must accept what follows. -/
def headPH (c1 : Char) (rest1 : List Char) : Option (List Char × List Char) :=
  if c1 = '{' then
    match rest1 with
    | c2 :: rest2 => if c2 = '{' then scanPH rest2 else none
    | [] => none
  else none

/-- Fuel-indexed scanner for the global regex replacement.  With fuel
at least the length of the input it computes the replacement of every
(leftmost, non-overlapping) placeholder match; on a failed match at a
position the scanner emits one character and retries from the next
position, exactly as the regex engine advances. -/
def interpF (vars : Vars) : Nat → List Char → List Char
  | 0, s => s
  | _ + 1, [] => []
  | fuel + 1, c1 :: rest1 =>
    match headPH c1 rest1 with
    | some (w, rest4) => substFor vars w ++ interpF vars fuel rest4
    | none => c1 :: interpF vars fuel rest1

/-- Interpolation over a character list, at its canonical fuel. -/
def interpolate (vars : Vars) (s : List Char) : List Char :=
  interpF vars s.length s

/-- A placeholder match sits at the very front of the character list:
the list starts with two opening braces, a nonempty word run and two
closing braces. -/
def matchAtFront (s : List Char) : Prop :=
  ∃ w rest, s = phText w ++ rest ∧ w ≠ [] ∧ ∀ c ∈ w, isWordChar c

/-- No placeholder match begins at any position inside the prefix
`pre` of `pre ++ rest`: the spec-side way of saying `pre` is literal
text preceding the next placeholder. -/
def noMatchStartingIn (pre rest : List Char) : Prop :=
  ∀ a b, pre = a ++ b → b ≠ [] → ¬ matchAtFront (b ++ rest)

/-- The variable environment of interpolation Scenario E: step 1
returned the payload `(price: 100)` bound to `lastResult`. -/
def scenEVars : Vars := [("lastResult", .obj [("price", .num 100)])]

/-- `data.replace(regex, replacer)` on one string. -/
def interpStr (vars : Vars) (s : String) : String :=
  ⟨interpolate vars s.data⟩

mutual
/-- `TaskOrchestrator.interpolateVariables(data, variables)`.  The
source first returns falsy data unchanged (`if (!data) return data`:
`null`, `false`, `0` and the empty string), then runs strings through
the regex replacement, maps itself over array elements and over
object values, and returns every other value as is.  The guard is
folded into the per-constructor cases here: `null`, booleans and
numbers are returned unchanged by the final `return data` anyway, and
the empty string is kept verbatim (the replacement on the empty
string would also be the empty string), so the function below is the
source behaviour case by case. -/
def interpolateVariables (vars : Vars) : Json → Json
  | .null => .null
  | .bool b => .bool b
  | .num n => .num n
  | .str s => if s.isEmpty then .str s else .str (interpStr vars s)
  | .arr xs => .arr (interpolateList vars xs)
  | .obj fs => .obj (interpolateFields vars fs)
def interpolateList (vars : Vars) : List Json → List Json
  | [] => []
  | x :: xs => interpolateVariables vars x :: interpolateList vars xs
def interpolateFields (vars : Vars) : List (String × Json) → List (String × Json)
  | [] => []
  | (k, v) :: rest => (k, interpolateVariables vars v) :: interpolateFields vars rest
end

/-! ## Spend Ledger

`SpendingTracker` from `services/spending.ts`.  Amounts are `bigint`
in the source, modelled as `Int`.  A record timestamp is a `Nat`; the
start of the current day (`new Date()` with hours zeroed) is passed
to the aggregation functions as `todayStart`, and `recordPayment`
stamps the record with the current instant `now`. -/

structure SpendingRecord where
  timestamp : Nat
  amount : Int
  asset : String
  serviceId : String
  serviceName : String
  txId : Option String
  deriving Repr, DecidableEq

structure SpendingTracker where
  records : List SpendingRecord
  maxPerTask : Int
  maxPerDay : Int
  deriving Repr, DecidableEq

/-- `recordPayment`: push a new record onto the ledger. -/
def recordPayment (t : SpendingTracker) (now : Nat) (amount : Int) (asset serviceId serviceName : String) (txId : Option String) : SpendingTracker :=
  { t with records := t.records ++ [⟨now, amount, asset, serviceId, serviceName, txId⟩] }

def sumInts : List Int → Int
  | [] => 0
  | x :: xs => x + sumInts xs

/-- `getTodaySpent`: records stamped today with asset STX, summed.
The source reduces with `(sum, r) => sum + r.amount` from `0n`. -/
def getTodaySpent (t : SpendingTracker) (todayStart : Nat) : Int :=
  sumInts (((t.records.filter fun r => decide (todayStart ≤ r.timestamp) && r.asset == "STX")).map SpendingRecord.amount)

/-- Result shape of `canSpend`.  The source interpolates formatted
amounts into the reason text; the reasons here keep the fixed part of
those messages (no claim depends on the text, only on `allowed`). -/
structure SpendCheck where
  allowed : Bool
  reason : Option String
  deriving Repr, DecidableEq

/-- `canSpend(amount)`: rejected when the amount exceeds the per-task
limit, or when spending it would push today's STX total over the
per-day limit; allowed otherwise. -/
def canSpend (t : SpendingTracker) (todayStart : Nat) (amount : Int) : SpendCheck :=
  if amount > t.maxPerTask then
    ⟨false, some "exceeds per-task limit"⟩
  else if getTodaySpent t todayStart + amount > t.maxPerDay then
    ⟨false, some "would exceed daily limit"⟩
  else
    ⟨true, none⟩

/-- `todayByService[serviceName] = (todayByService[serviceName] || 0n) + amount`
on an insertion-ordered association list. -/
def bumpService (m : List (String × Int)) (name : String) (amt : Int) : List (String × Int) :=
  if m.any fun kv => kv.1 == name then
    m.map fun kv => if kv.1 == name then (kv.1, kv.2 + amt) else kv
  else
    m ++ [(name, amt)]

structure SummaryToday where
  total : Int
  transactions : Nat
  byService : List (String × Int)
  deriving Repr, DecidableEq

structure SummaryAllTime where
  total : Int
  transactions : Nat
  deriving Repr, DecidableEq

structure SummaryLimits where
  perTask : Int
  perDay : Int
  remainingToday : Int
  deriving Repr, DecidableEq

structure SpendingSummary where
  today : SummaryToday
  allTime : SummaryAllTime
  limits : SummaryLimits
  deriving Repr, DecidableEq

/-- `getSummary()`: today counts every record stamped today
(regardless of asset) for `transactions`, but totals and the
per-service breakdown only sum STX records; all-time counts every
record and totals only STX; `remainingToday` is floored at zero. -/
def getSummary (t : SpendingTracker) (todayStart : Nat) : SpendingSummary :=
  let todayRecords := t.records.filter fun r => decide (todayStart ≤ r.timestamp)
  let todayByService := (todayRecords.filter fun r => r.asset == "STX").foldl
    (fun m r => bumpService m r.serviceName r.amount) []
  let todayTotal := getTodaySpent t todayStart
  let allTimeTotal := sumInts ((t.records.filter fun r => r.asset == "STX").map SpendingRecord.amount)
  { today := ⟨todayTotal, todayRecords.length, todayByService⟩
    allTime := ⟨allTimeTotal, t.records.length⟩
    limits := ⟨t.maxPerTask, t.maxPerDay,
      if t.maxPerDay > todayTotal then t.maxPerDay - todayTotal else 0⟩ }

/-! ## History Log

The REST server keeps `pipelineHistory` with capacity
`MAX_HISTORY = 50`: `addToHistory` unshifts the new entry and pops
the oldest when the length exceeds the capacity. -/

structure HistoryEntry where
  id : String
  query : String
  stepCount : Nat
  totalCostSTX : Int
  durationMs : Nat
  status : String
  txHashes : List String
  timestamp : String
  deriving Repr, DecidableEq

def maxHistory : Nat := 50

/-- `addToHistory(entry)`: prepend, then drop the last element when
over capacity. -/
def addToHistory (h : List HistoryEntry) (e : HistoryEntry) : List HistoryEntry :=
  let h2 := e :: h
  if h2.length > maxHistory then h2.dropLast else h2

/-- Modelled from the spec: the History Log interface names a
`getRecent(limit)` reader ("return up to `limit` most recent entries,
newest first"); the repository source only exposes the whole
most-recent-first list (`GET /api/history`), so the reader is the
`limit`-prefix of the stored list. -/
def getRecent (h : List HistoryEntry) (limit : Nat) : List HistoryEntry :=
  h.take limit

/-- A concrete history entry keyed by a number (for concrete runs of
`addToHistory`). -/
def histEntry (n : Nat) : HistoryEntry :=
  ⟨toString n, "q", 1, 0, 0, "success", [], "t"⟩

/-- `n` pairwise distinct concrete history entries, oldest first. -/
def manyEntries (n : Nat) : List HistoryEntry :=
  (List.range n).map histEntry

/-! ## Catalog and plan data model

`X402Service`, `TaskStep` and `TaskPlan` from `types.ts`.  A service
price amount is a decimal string in the source, consumed through
`BigInt(service.price.amount)` everywhere the planner touches it; the
model carries the integer directly. -/

structure Price where
  amount : Int
  asset : String
  deriving Repr, DecidableEq

structure X402Service where
  id : String
  name : String
  description : String
  url : String
  price : Price
  category : Option String
  tags : Option (List String)
  deriving Repr, DecidableEq

structure TaskStep where
  id : String
  description : String
  serviceId : String
  requestData : Option Json
  required : Option Bool
  estimatedCost : Int
  deriving Repr

structure TaskPlan where
  id : String
  query : String
  description : String
  steps : List TaskStep
  estimatedTotalCost : Int
  outputTemplate : Option String
  deriving Repr

def sumCosts (steps : List TaskStep) : Int :=
  sumInts (steps.map TaskStep.estimatedCost)

def sumPrices (services : List X402Service) : Int :=
  sumInts (services.map fun s => s.price.amount)

/-! ## Plan Builder

`TaskPlanner` from `agent/planner.ts`.  `createPlan` applies the AI
tier when an OpenAI client is configured and the call succeeds,
otherwise the heuristic tier; the heuristic tier falls through to the
keyword tier when none of its task patterns matches the query.

The pattern-detection prelude of `createHeuristicPlan` (lines
203-231) tests eleven regular expressions against the lower-cased
query and collects the matching patterns, deduplicated by category,
in order.  The regular-expression engine itself is not re-implemented
here; instead the resulting `detectedTasks` list is an explicit input
to the model and every theorem quantifies over all of its possible
values, which covers every query.  The pattern table itself
(categories and keyword lists) is reproduced below. -/

structure TaskPattern where
  category : String
  keywords : List String
  deriving Repr, DecidableEq

/-- The `taskPatterns` table (category and keywords of each entry; the
regex column drives only the detection prelude, which the model takes
as an input). -/
def taskPatterns : List TaskPattern :=
  [ ⟨"news", ["bitcoin", "news"]⟩
  , ⟨"news", ["stacks", "news"]⟩
  , ⟨"news", ["news"]⟩
  , ⟨"market", ["bitcoin", "price", "btc"]⟩
  , ⟨"market", ["stx", "price"]⟩
  , ⟨"blockchain", ["blockchain", "info"]⟩
  , ⟨"ai", ["summarize", "ai"]⟩
  , ⟨"ai", ["sentiment", "analysis"]⟩
  , ⟨"ai", ["translate", "language"]⟩
  , ⟨"generation", ["tweet", "generate", "social"]⟩
  , ⟨"generation", ["report", "generate"]⟩ ]

/-- Stable insertion into a list sorted by `le` (ties keep the
existing element first, as the JavaScript stable sort does). -/
def insertLe (le : α → α → Bool) (x : α) : List α → List α
  | [] => [x]
  | y :: ys => if le y x then y :: insertLe le x ys else x :: y :: ys

/-- Stable sort by `le`; models `Array.prototype.sort` with a
comparator whose order relation is `le` (JavaScript sort is stable,
so the two agree extensionally for the total preorders used here). -/
def stableSort (le : α → α → Bool) (l : List α) : List α :=
  l.foldl (fun acc x => insertLe le x acc) []

def lowerTags (s : X402Service) : List String :=
  (s.tags.getD []).map lowerStr

/-- Per-task service score of the heuristic tier: +10 for a category
match, and per keyword +5 in the name, +3 in the description, +4 as a
tag; an already selected service scores 0. -/
def scoreForTask (selected : List X402Service) (task : TaskPattern) (s : X402Service) : Int :=
  let nameLower := lowerStr s.name
  let descLower := lowerStr s.description
  let tags := lowerTags s
  let catScore : Int := if s.category == some task.category then 10 else 0
  let kwScore : Int := task.keywords.foldl
    (fun acc k =>
      acc + (if includesStr nameLower k then 5 else 0)
          + (if includesStr descLower k then 3 else 0)
          + (if tags.contains k then 4 else 0)) 0
  if selected.contains s then 0 else catScore + kwScore

/-- The best-scoring service for one task (`score > bestScore` with
`bestScore` starting at 0, so the earliest strict maximum wins and a
zero-scoring catalog leaves no best service). -/
def findBestService (services selected : List X402Service) (task : TaskPattern) : Option X402Service × Int :=
  services.foldl
    (fun best s =>
      let sc := scoreForTask selected task s
      if sc > best.2 then (some s, sc) else best)
    (none, 0)

/-- The selection loop of `createHeuristicPlan`: for each detected
task pick the best service, and add it only when the running cost
stays within budget. -/
def selectForTasks (services : List X402Service) (maxBudget : Int) : List TaskPattern → List X402Service → Int → List X402Service × Int
  | [], sel, cost => (sel, cost)
  | task :: rest, sel, cost =>
    match findBestService services sel task with
    | (some best, bestScore) =>
      if bestScore > 0 then
        if cost + best.price.amount ≤ maxBudget then
          selectForTasks services maxBudget rest (sel ++ [best]) (cost + best.price.amount)
        else
          selectForTasks services maxBudget rest sel cost
      else
        selectForTasks services maxBudget rest sel cost
    | (none, _) => selectForTasks services maxBudget rest sel cost

/-- `[...services].sort((a, b) => Number(BigInt(a.price.amount) - BigInt(b.price.amount)))[0]`:
the cheapest catalog service. -/
def cheapestService (services : List X402Service) : Option X402Service :=
  (stableSort (fun a b => a.price.amount ≤ b.price.amount) services).head?

/-- `selectedServices.map((service, index) => ...)`: build the plan
steps; every step after the first passes the previous output forward
through a lastResult placeholder. -/
def mkStepsFrom (idx : Nat) : List X402Service → List TaskStep
  | [] => []
  | service :: rest =>
    { id := "step-" ++ toString (idx + 1)
      description := "Use " ++ service.name ++ ": " ++ service.description
      serviceId := service.id
      requestData :=
        if idx > 0 then some (.obj [("input", .str ⟨phText "lastResult".data⟩)]) else none
      required := some true
      estimatedCost := service.price.amount } :: mkStepsFrom (idx + 1) rest

/-- The shared fallback of both heuristic tiers: when nothing was
selected, take the single cheapest service if it fits the budget,
otherwise fail (no plan). -/
def cheapestFallback (services : List X402Service) (maxBudget : Int) : Option (List X402Service × Int) :=
  match cheapestService services with
  | some ch => if ch.price.amount ≤ maxBudget then some ([ch], ch.price.amount) else none
  | none => none

/-- Assemble the `TaskPlan` the heuristic tiers return (`plan-` id from
the clock, `Execute N service(s)` description, no output template). -/
def mkHeuristicPlan (nowMs : Nat) (query : String) (sel : List X402Service) (runningCost : Int) : TaskPlan :=
  { id := "plan-" ++ toString nowMs
    query := query
    description := "Execute " ++ toString sel.length ++ " service(s) to complete the task"
    steps := mkStepsFrom 0 sel
    estimatedTotalCost := runningCost
    outputTemplate := none }

/-- Split a character list at whitespace characters, producing the
delimited tokens (consecutive separators yield empty tokens); `acc`
holds the characters of the current token in reverse. -/
def splitWs (acc : List Char) : List Char → List String
  | [] => [⟨acc.reverse⟩]
  | c :: rest =>
    if c.isWhitespace then (⟨acc.reverse⟩ : String) :: splitWs [] rest
    else splitWs (c :: acc) rest

/-- Query tokens of the keyword tier: lower-cased whitespace split,
keeping tokens of length at least 3.  (The JavaScript split on
`\s+` produces no empty tokens; the character split here can, but the
length filter removes them, so the two token lists agree.) -/
def queryWords (query : String) : List String :=
  (splitWs [] (lowerStr query).data).filter fun w => w.length ≥ 3

/-- Keyword-relevance score of the fallback tier: per query token +3
in the name, +2 in the description, +2 when some tag contains it. -/
def keywordScore (words : List String) (s : X402Service) : Int :=
  let nameLower := lowerStr s.name
  let descLower := lowerStr s.description
  let tags := lowerTags s
  words.foldl
    (fun acc w =>
      acc + (if includesStr nameLower w then 3 else 0)
          + (if includesStr descLower w then 2 else 0)
          + (if tags.any fun t => includesStr t w then 2 else 0)) 0

/-- Order of the keyword tier sort: score descending, then price
ascending. -/
def kwLe (a b : X402Service × Int) : Bool :=
  decide (b.2 < a.2) || (a.2 == b.2 && decide (a.1.price.amount ≤ b.1.price.amount))

/-- The greedy selection loop of `createKeywordBasedPlan`: stop at
`maxSteps` services, stop at the first zero score once something was
selected, and skip services that would break the budget. -/
def selectScored (maxSteps : Nat) (maxBudget : Int) : List (X402Service × Int) → List X402Service → Int → List X402Service × Int
  | [], sel, cost => (sel, cost)
  | (s, score) :: rest, sel, cost =>
    if sel.length ≥ maxSteps then (sel, cost)
    else if score == 0 && sel.length > 0 then (sel, cost)
    else if cost + s.price.amount ≤ maxBudget then
      selectScored maxSteps maxBudget rest (sel ++ [s]) (cost + s.price.amount)
    else
      selectScored maxSteps maxBudget rest sel cost

/-- The closing block both heuristic tiers share verbatim (planner.ts
lines 285-315 and 367-397): fall back to the cheapest service when
nothing was selected, fail when even that does not fit the budget,
and otherwise assemble the plan from the selected services and the
running cost. -/
def finalizePlan (nowMs : Nat) (query : String) (services : List X402Service) (maxBudget : Int) (picked : List X402Service × Int) : Option TaskPlan :=
  match (if picked.1.isEmpty then cheapestFallback services maxBudget else some picked) with
  | none => none
  | some (sel, runningCost) => some (mkHeuristicPlan nowMs query sel runningCost)

/-- `createKeywordBasedPlan`. -/
def createKeywordBasedPlan (nowMs : Nat) (query : String) (services : List X402Service) (maxSteps : Nat) (maxBudget : Int) : Option TaskPlan :=
  let words := queryWords query
  let scored := stableSort kwLe (services.map fun s => (s, keywordScore words s))
  finalizePlan nowMs query services maxBudget (selectScored maxSteps maxBudget scored [] 0)

/-- `createHeuristicPlan`, with the detected task list (the outcome of
the regex prelude on the query) as an explicit input. -/
def createHeuristicPlan (nowMs : Nat) (query : String) (detectedTasks : List TaskPattern) (services : List X402Service) (maxSteps : Nat) (maxBudget : Int) : Option TaskPlan :=
  if detectedTasks.isEmpty then
    createKeywordBasedPlan nowMs query services maxSteps maxBudget
  else
    let tasksToExecute := detectedTasks.take maxSteps
    finalizePlan nowMs query services maxBudget (selectForTasks services maxBudget tasksToExecute [] 0)

/-- One step of the JSON object the AI tier parses out of the model
response. -/
structure AIStepSpec where
  id : Option String
  description : String
  serviceId : String
  requestData : Option Json
  required : Option Bool
  deriving Repr

/-- The parsed AI response (`description`, `steps`, optional
`outputTemplate`). -/
structure AIPlanSpec where
  description : String
  steps : List AIStepSpec
  outputTemplate : Option String
  deriving Repr

def aiStepCost (services : List X402Service) (st : AIStepSpec) : Int :=
  match services.find? fun s => s.id == st.serviceId with
  | some s => s.price.amount
  | none => 0

def mkAISteps (services : List X402Service) (idx : Nat) : List AIStepSpec → List TaskStep
  | [] => []
  | st :: rest =>
    { id := match st.id with
        | some s => if s.isEmpty then "step-" ++ toString (idx + 1) else s
        | none => "step-" ++ toString (idx + 1)
      description := st.description
      serviceId := st.serviceId
      requestData := st.requestData
      required := some (st.required != some false)
      estimatedCost := aiStepCost services st } :: mkAISteps services (idx + 1) rest

/-- `createAIPlan` after a successful model call: the parsed steps are
mapped to plan steps, each costed from the matching catalog service
(0 when the id is unknown), and the total is their sum.  `maxSteps`
and `maxBudget` appear only inside the prompt text in the source; the
construction applies neither cap. -/
def createAIPlan (nowMs : Nat) (query : String) (services : List X402Service) (maxSteps : Nat) (maxBudget : Int) (parsed : AIPlanSpec) : TaskPlan :=
  let _ := maxSteps
  let _ := maxBudget
  { id := "plan-" ++ toString nowMs
    query := query
    description := parsed.description
    steps := mkAISteps services 0 parsed.steps
    estimatedTotalCost := sumInts (parsed.steps.map (aiStepCost services))
    outputTemplate := parsed.outputTemplate }

/-- A concrete catalog service (price 100 microSTX) for concrete
planner runs. -/
def cxService : X402Service :=
  ⟨"svc1", "Bitcoin Price", "Latest BTC price", "http://svc1", ⟨100, "STX"⟩, some "market", none⟩

/-- A second concrete catalog service (price 40 microSTX). -/
def cxService2 : X402Service :=
  ⟨"svc2", "News Feed", "Latest crypto news", "http://svc2", ⟨40, "STX"⟩, some "news", none⟩

/-- A parsed AI response with one step bound to `svc1`. -/
def cxAISpec : AIPlanSpec :=
  ⟨"Get the Bitcoin price", [⟨some "s1", "fetch price", "svc1", none, none⟩], none⟩

/-- A parsed AI response with two steps. -/
def cxAISpec2 : AIPlanSpec :=
  ⟨"Two fetches",
    [⟨some "s1", "fetch price", "svc1", none, none⟩,
     ⟨some "s2", "fetch news", "svc2", none, none⟩], none⟩

/-- Placeholder plan used only as the default of `Option.getD` when
reading back a concrete planner output. -/
def dummyPlan : TaskPlan := ⟨"", "", "", [], 0, none⟩

/-- `options.maxSteps || 5` (zero is falsy in JavaScript). -/
def effectiveMaxSteps (o : Option Nat) : Nat :=
  match o with
  | some n => if n == 0 then 5 else n
  | none => 5

/-- `options.maxBudget || BigInt(1000000)` (the zero bigint is
falsy). -/
def effectiveMaxBudget (o : Option Int) : Int :=
  match o with
  | some b => if b == 0 then 1000000 else b
  | none => 1000000

/-- Outcome of the AI planning attempt, an external input: no client
configured, the completion call threw, the model answered with an
`error` field, or a parsed plan specification. -/
inductive AIOutcome where
  | unavailable : AIOutcome
  | failed : AIOutcome
  | refused : AIOutcome
  | ok (parsed : AIPlanSpec) : AIOutcome
  deriving Repr

/-- `TaskPlanner.createPlan`: resolve the effective constraints, try
the AI tier, and fall back to the heuristic tier when the AI tier is
unavailable or its call failed (a model refusal returns no plan
without falling through). -/
def createPlan (nowMs : Nat) (query : String) (detectedTasks : List TaskPattern) (services : List X402Service) (maxBudgetOpt : Option Int) (maxStepsOpt : Option Nat) (ai : AIOutcome) : Option TaskPlan :=
  let maxSteps := effectiveMaxSteps maxStepsOpt
  let maxBudget := effectiveMaxBudget maxBudgetOpt
  match ai with
  | .ok parsed => some (createAIPlan nowMs query services maxSteps maxBudget parsed)
  | .refused => none
  | .unavailable => createHeuristicPlan nowMs query detectedTasks services maxSteps maxBudget
  | .failed => createHeuristicPlan nowMs query detectedTasks services maxSteps maxBudget

/-! ## Pipeline Orchestrator

`TaskOrchestrator.executePipeline` and `executeStep` from
`agent/orchestrator.ts`.  The payment provider is an external
collaborator: the reply of `PaymentService.executePayment` for the
step at index `i` is supplied by an oracle `replies : Nat → PayReply`,
so theorems quantify over every provider behaviour.  `TaskMemory`
(agent/memory.ts) is kept as a plain list; `savePipeline` is modelled
from the spec as the most-recent-first prepend of the History Log
(only whether it is invoked matters below). -/

structure PaymentResult where
  success : Bool
  txId : Option String
  amount : Option Int
  asset : Option String
  error : Option String
  explorerUrl : Option String
  deriving Repr

/-- What `PaymentService.executePayment` resolves with: the payment
outcome and the paid service response body. -/
structure PayReply where
  payment : PaymentResult
  data : Option Json
  deriving Repr

structure StepResult where
  stepId : String
  success : Bool
  data : Option Json
  service : Option X402Service
  payment : Option PaymentResult
  cost : Option Int
  error : Option String
  deriving Repr

structure PipelineResult where
  pipelineId : String
  query : String
  success : Bool
  plan : Option TaskPlan
  stepResults : List StepResult
  finalOutput : Option Json
  totalCost : Int
  error : Option String
  deriving Repr

/-- Accumulator threaded through the step loop (`ExecutionContext`);
the field `vars` is the `variables` record of the source (the word
is reserved in Lean). -/
structure ExecutionContext where
  pipelineId : String
  query : String
  vars : Vars
  results : List StepResult
  totalSpent : Int
  deriving Repr

/-- Lifecycle callbacks in emission order; each event keeps the step
index the source passes to the callback. -/
inductive OrchEvent where
  | planCreated : OrchEvent
  | stepStart (index : Nat) : OrchEvent
  | stepComplete (index : Nat) : OrchEvent
  | stepError (index : Nat) (msg : String) : OrchEvent
  | pipelineComplete : OrchEvent
  deriving Repr, DecidableEq

/-- `context.variables[key] = value` on the association list:
overwrite an existing binding, append a new one. -/
def setVar (vars : Vars) (k : String) (v : Json) : Vars :=
  if vars.any fun kv => kv.1 == k then
    vars.map fun kv => if kv.1 == k then (kv.1, v) else kv
  else
    vars ++ [(k, v)]

/-- Truthiness of an optional payload (`result.data` tested with
`&&`). -/
def dataTruthy : Option Json → Bool
  | some d => !jsonFalsy d
  | none => false

/-- `TaskOrchestrator.executeStep`: resolve the service (failing with
`Service not found` when the plan references an unknown id),
interpolate the request payload, make the payment, and on a reported
payment failure throw its error (`payment.error || 'Payment
failed'`); on success record the spend (the source asserts
`payment.amount!`/`payment.asset!` non-null; absent values are read
as 0 and the empty string) and return the successful `StepResult`. -/
def executeStep (allServices : List X402Service) (reply : PayReply) (now : Nat) (tracker : SpendingTracker) (step : TaskStep) (vars : Vars) : Except String (StepResult × SpendingTracker) :=
  match allServices.find? fun s => s.id == step.serviceId with
  | none => .error ("Service not found: " ++ step.serviceId)
  | some service =>
    let _requestData := step.requestData.map (interpolateVariables vars)
    if !reply.payment.success then
      .error (reply.payment.error.getD "Payment failed")
    else
      let tracker2 := recordPayment tracker now (reply.payment.amount.getD 0)
        (reply.payment.asset.getD "") service.id service.name reply.payment.txId
      .ok ({ stepId := step.id
             success := true
             data := reply.data
             service := some service
             payment := some reply.payment
             cost := reply.payment.amount
             error := none }, tracker2)

structure RunState where
  ctx : ExecutionContext
  events : List OrchEvent
  tracker : SpendingTracker
  deriving Repr

/-- The failure result the source makes when `executeStep` threw
(`errorResult` at lines 145-149). -/
def mkErrorResult (step : TaskStep) (e : String) : StepResult :=
  { stepId := step.id, success := false, data := none, service := none
    payment := none, cost := none, error := some e }

/-- State update of one successful loop iteration at index `i`: the
step started and step completed events, the pushed result, the
`stepN`/`lastResult` bindings when the payload is truthy, the
accumulated cost, and the ledger returned by the step. -/
def okState (st : RunState) (i : Nat) (result : StepResult) (tracker2 : SpendingTracker) : RunState :=
  { ctx := { st.ctx with
      results := st.ctx.results ++ [result]
      vars :=
        if result.success && dataTruthy result.data then
          match result.data with
          | some d => setVar (setVar st.ctx.vars ("step" ++ toString (i + 1)) d) "lastResult" d
          | none => st.ctx.vars
        else st.ctx.vars
      totalSpent := st.ctx.totalSpent + result.cost.getD 0 }
    events := st.events ++ [.stepStart i, .stepComplete i]
    tracker := tracker2 }

/-- State update of one failed loop iteration at index `i`: the step
started and step error events plus the pushed error result; context
spend and ledger are untouched. -/
def errState (st : RunState) (i : Nat) (step : TaskStep) (e : String) : RunState :=
  { st with
    ctx := { st.ctx with results := st.ctx.results ++ [mkErrorResult step e] }
    events := st.events ++ [.stepStart i, .stepError i e] }

/-- The step loop of `executePipeline` (lines 123-160): emit the step
started event, run the step; on success push the result, bind
`stepN`/`lastResult` when the payload is truthy, accumulate the cost
and emit step completed; on failure push an error result, emit the
step error, and abort with `Required step failed: ...` unless the
step is marked optional (`required !== false`). -/
def runSteps (allServices : List X402Service) (replies : Nat → PayReply) (now : Nat) : List TaskStep → Nat → RunState → RunState × Option String
  | [], _, st => (st, none)
  | step :: rest, i, st =>
    match executeStep allServices (replies i) now st.tracker step st.ctx.vars with
    | .ok (result, tracker2) =>
      runSteps allServices replies now rest (i + 1) (okState st i result tracker2)
    | .error e =>
      if step.required != some false then
        (errState st i step e, some ("Required step failed: " ++ e))
      else
        runSteps allServices replies now rest (i + 1) (errState st i step e)

/-- The error `executeStep` produces for a given step, as a function
of the catalog and the payment reply alone (its failure branches do
not consult the ledger or the variables): the unresolved-service
error, or the reported payment error (`payment.error || 'Payment
failed'`); `none` when the step succeeds. -/
def stepFailureOf (allServices : List X402Service) (reply : PayReply) (step : TaskStep) : Option String :=
  match allServices.find? fun s => s.id == step.serviceId with
  | none => some ("Service not found: " ++ step.serviceId)
  | some _ =>
    if !reply.payment.success then some (reply.payment.error.getD "Payment failed")
    else none

/-- Events carrying a step index below `n` (used to state that a
state reached before index `n` mentions no later step). -/
def eventIdxLt (n : Nat) : OrchEvent → Prop
  | .stepStart i => i < n
  | .stepComplete i => i < n
  | .stepError i _ => i < n
  | .planCreated => True
  | .pipelineComplete => True

/-- Events carrying a step index at least `n`. -/
def eventIdxGe (n : Nat) : OrchEvent → Prop
  | .stepStart i => n ≤ i
  | .stepComplete i => n ≤ i
  | .stepError i _ => n ≤ i
  | .planCreated => False
  | .pipelineComplete => False

/-- `compileFinalOutput`: interpolate the output template when the
plan has a (nonempty) one, otherwise the payload of the last
successful step with a truthy payload, otherwise null. -/
def compileFinalOutput (ctx : ExecutionContext) (plan : TaskPlan) : Option Json :=
  let lastGood :=
    match (ctx.results.filter fun r => r.success && dataTruthy r.data).getLast? with
    | some r => r.data
    | none => none
  match plan.outputTemplate with
  | some tpl => if tpl.isEmpty then lastGood else some (interpolateVariables ctx.vars (.str tpl))
  | none => lastGood

/-- The result every catch-path of `executePipeline` returns: failure
flag, the error text, no plan, no step results, zero cost. -/
def mkFailedResult (pipelineId query : String) (msg : String) : PipelineResult :=
  { pipelineId := pipelineId
    query := query
    success := false
    plan := none
    stepResults := []
    finalOutput := none
    totalCost := 0
    error := some msg }

/-- Everything `executePipeline` leaves behind: the returned
`PipelineResult`, the events emitted through the run, the shared
spend ledger, and the pipeline memory. -/
structure PipelineOutcome where
  result : PipelineResult
  events : List OrchEvent
  tracker : SpendingTracker
  memory : List PipelineResult
  deriving Repr

/-- The run state entering the step loop: fresh context, the plan
created event already emitted, the shared ledger. -/
def initialRunState (pid query : String) (tracker : SpendingTracker) : RunState :=
  { ctx := { pipelineId := pid, query := query, vars := [], results := [], totalSpent := 0 }
    events := [.planCreated]
    tracker := tracker }

/-- The outcome of a run whose step loop finished without an abort:
the compiled successful `PipelineResult`, saved to memory
(`savePipeline`, modelled from the spec as the most-recent-first
prepend), with the pipeline completed event emitted last. -/
def successOutcome (pid query : String) (plan : TaskPlan) (run : RunState) (memory : List PipelineResult) : PipelineOutcome :=
  let result : PipelineResult :=
    { pipelineId := pid
      query := query
      success := true
      plan := some plan
      stepResults := run.ctx.results
      finalOutput := compileFinalOutput run.ctx plan
      totalCost := run.ctx.totalSpent
      error := none }
  { result := result
    events := run.events ++ [.pipelineComplete]
    tracker := run.tracker
    memory := result :: memory }

/-- `TaskOrchestrator.executePipeline` from service discovery onward.
The discovered catalog and the created plan (or the absence of one)
are inputs; the body checks them, verifies affordability against the
spend ledger, drives the step loop, and either compiles and persists
a successful result or returns the catch-path result, which records
only the error: no plan, no step results, zero total cost, and no
`savePipeline` call. -/
def executePipeline (pipelineId query : String) (now todayStart : Nat) (allServices : List X402Service) (planOpt : Option TaskPlan) (replies : Nat → PayReply) (tracker : SpendingTracker) (memory : List PipelineResult) : PipelineOutcome :=
  if allServices.isEmpty then
    { result := mkFailedResult pipelineId query "No x402 services available"
      events := [], tracker := tracker, memory := memory }
  else
    match planOpt with
    | none =>
      { result := mkFailedResult pipelineId query "Could not create execution plan for this task"
        events := [], tracker := tracker, memory := memory }
    | some plan =>
      if plan.steps.isEmpty then
        { result := mkFailedResult pipelineId query "Could not create execution plan for this task"
          events := [], tracker := tracker, memory := memory }
      else
        let events0 : List OrchEvent := [.planCreated]
        let check := canSpend tracker todayStart plan.estimatedTotalCost
        if !check.allowed then
          { result := mkFailedResult pipelineId query ("Budget exceeded: " ++ check.reason.getD "undefined")
            events := events0, tracker := tracker, memory := memory }
        else
          let run := runSteps allServices replies now plan.steps 0
            (initialRunState pipelineId query tracker)
          match run.2 with
          | some err =>
            { result := mkFailedResult pipelineId query err
              events := run.1.events, tracker := run.1.tracker, memory := memory }
          | none => successOutcome pipelineId query plan run.1 memory

/-! ## Concrete pipeline scenarios

Concrete plans, payment replies and ledgers used to run
`executePipeline` on explicit inputs. -/

def cxStep1 : TaskStep :=
  ⟨"step-1", "Use Bitcoin Price: Latest BTC price", "svc1", none, some true, 100⟩

def cxStep2 : TaskStep :=
  ⟨"step-2", "Use News Feed: Latest crypto news", "svc2",
    some (.obj [("input", .str ⟨phText "lastResult".data⟩)]), some true, 40⟩

def cxPlan2 : TaskPlan :=
  ⟨"plan-0", "price then news", "Execute 2 service(s) to complete the task",
    [cxStep1, cxStep2], 140, none⟩

def cxPlanOne : TaskPlan :=
  ⟨"plan-0", "price", "Execute 1 service(s) to complete the task",
    [cxStep1], 100, none⟩

/-- A successful payment reply costing `amt` microSTX with a small
JSON payload. -/
def paySuccess (amt : Int) : PayReply :=
  ⟨⟨true, some "0xabc", some amt, some "STX", none, none⟩, some (.obj [("price", .num 100)])⟩

/-- A failed payment reply carrying the provider error `e`. -/
def payFail (e : String) : PayReply :=
  ⟨⟨false, none, none, none, some e, none⟩, none⟩

/-- Replies where the first step fails and the rest succeed. -/
def cxRepliesFailFirst : Nat → PayReply :=
  fun i => if i == 0 then payFail "boom" else paySuccess 40

/-- Replies where the first step succeeds at cost 5 and the rest
fail. -/
def cxRepliesFailSecond : Nat → PayReply :=
  fun i => if i == 0 then paySuccess 5 else payFail "kaput"

/-- Replies where every payment reports an insufficient balance. -/
def cxRepliesInsufficient : Nat → PayReply :=
  fun _ => payFail "insufficient balance"

/-- A fresh ledger with roomy limits. -/
def cxTracker : SpendingTracker := ⟨[], 1000000, 1000000⟩

/-! # Theorems -/

/-! ## Helper lemmas -/

theorem sumInts_append (a b : List Int) : sumInts (a ++ b) = sumInts a + sumInts b := by
  induction a with
  | nil => simp [sumInts]
  | cons x xs ih => simp [sumInts, ih]; ring

/-! ## Spend Ledger claims -/

/-- C6: for every ledger state reachable by any prior sequence of
`recordPayment` calls (and indeed any state at all) and every amount,
`canSpend(amount)` returns `allowed = false` whenever
`getTodaySpent() + amount > maxPerDay`. -/
theorem canSpend_daily_ceiling (t : SpendingTracker) (todayStart : Nat) (amount : Int)
    (h : getTodaySpent t todayStart + amount > t.maxPerDay) :
    (canSpend t todayStart amount).allowed = false := by
  unfold canSpend
  by_cases h1 : amount > t.maxPerTask
  · simp [h1]
  · simp [h1, h]

/-- C6 witness: a ledger with daily limit 10 and an empty record list
rejects spending 20. -/
theorem canSpend_daily_ceiling_witness :
    getTodaySpent ⟨[], 100, 10⟩ 0 + 20 > (10 : Int)
    ∧ (canSpend ⟨[], 100, 10⟩ 0 20).allowed = false :=
  ⟨by decide, canSpend_daily_ceiling ⟨[], 100, 10⟩ 0 20 (by decide)⟩

/-- C8: a payment recorded with an asset other than STX is appended to
the ledger records but leaves `getTodaySpent` unchanged and therefore
leaves every `canSpend` decision unchanged. -/
theorem nonPrimary_asset_excluded (t : SpendingTracker) (todayStart now : Nat)
    (amount : Int) (asset sid sname : String) (txId : Option String)
    (hA : asset ≠ "STX") :
    (recordPayment t now amount asset sid sname txId).records
        = t.records ++ [⟨now, amount, asset, sid, sname, txId⟩]
    ∧ getTodaySpent (recordPayment t now amount asset sid sname txId) todayStart
        = getTodaySpent t todayStart
    ∧ ∀ a, canSpend (recordPayment t now amount asset sid sname txId) todayStart a
        = canSpend t todayStart a := by
  have hfilter : getTodaySpent (recordPayment t now amount asset sid sname txId) todayStart
      = getTodaySpent t todayStart := by
    unfold getTodaySpent recordPayment
    simp [List.filter_append, hA]
  refine ⟨rfl, hfilter, fun a => ?_⟩
  unfold canSpend
  rw [hfilter]
  rfl

/-- C8 witness: recording an sBTC payment of 7 leaves the today total
at 0 and the decision for spending 5 unchanged. -/
theorem nonPrimary_asset_excluded_witness :
    (recordPayment ⟨[], 100, 10⟩ 3 7 "sBTC" "svc" "Svc" none).records
        = [⟨3, 7, "sBTC", "svc", "Svc", none⟩]
    ∧ getTodaySpent (recordPayment ⟨[], 100, 10⟩ 3 7 "sBTC" "svc" "Svc" none) 0
        = getTodaySpent ⟨[], 100, 10⟩ 0
    ∧ canSpend (recordPayment ⟨[], 100, 10⟩ 3 7 "sBTC" "svc" "Svc" none) 0 5
        = canSpend ⟨[], 100, 10⟩ 0 5 := by
  have h := nonPrimary_asset_excluded ⟨[], 100, 10⟩ 0 3 7 "sBTC" "svc" "Svc" none (by decide)
  exact ⟨h.1, h.2.1, h.2.2 5⟩

/-- C10: recording a payment in an asset other than STX increments
both transaction counts of `getSummary` (today and all-time) but
changes no reported total: today total, all-time total, the
per-service breakdown and the limits block are all unchanged. -/
theorem getSummary_nonPrimary (t : SpendingTracker) (todayStart now : Nat)
    (amount : Int) (asset sid sname : String) (txId : Option String)
    (hA : asset ≠ "STX") (hNow : todayStart ≤ now) :
    (getSummary (recordPayment t now amount asset sid sname txId) todayStart).today.transactions
        = (getSummary t todayStart).today.transactions + 1
    ∧ (getSummary (recordPayment t now amount asset sid sname txId) todayStart).allTime.transactions
        = (getSummary t todayStart).allTime.transactions + 1
    ∧ (getSummary (recordPayment t now amount asset sid sname txId) todayStart).today.total
        = (getSummary t todayStart).today.total
    ∧ (getSummary (recordPayment t now amount asset sid sname txId) todayStart).allTime.total
        = (getSummary t todayStart).allTime.total
    ∧ (getSummary (recordPayment t now amount asset sid sname txId) todayStart).today.byService
        = (getSummary t todayStart).today.byService
    ∧ (getSummary (recordPayment t now amount asset sid sname txId) todayStart).limits
        = (getSummary t todayStart).limits := by
  have hToday : getTodaySpent (recordPayment t now amount asset sid sname txId) todayStart
      = getTodaySpent t todayStart := by
    unfold getTodaySpent recordPayment
    simp [List.filter_append, hA]
  refine ⟨?_, ?_, ?_, ?_, ?_, ?_⟩
  · simp [getSummary, recordPayment, List.filter_append, hNow]
  · simp [getSummary, recordPayment]
  · simpa [getSummary] using hToday
  · simp [getSummary, recordPayment, List.filter_append, hA]
  · simp [getSummary, recordPayment, List.filter_append, hNow, hA]
  · simp only [getSummary]
    rw [hToday]
    simp [recordPayment]

/-! ## History Log claims -/

theorem take_append_take (a b : List HistoryEntry) (n : Nat) :
    (a ++ b.take n).take n = (a ++ b).take n := by
  rw [List.take_append_eq_append_take, List.take_append_eq_append_take, List.take_take]
  have : min (n - a.length) n = n - a.length := by omega
  rw [this]

theorem addToHistory_take (h : List HistoryEntry) (e : HistoryEntry)
    (hLen : h.length ≤ maxHistory) :
    addToHistory h e = (e :: h).take maxHistory := by
  unfold addToHistory
  by_cases hc : (e :: h).length > maxHistory
  · have h50 : h.length = maxHistory := by
      simp [List.length_cons] at hc
      omega
    simp only [hc, if_true, List.dropLast_eq_take]
    congr 1
  · simp only [hc, if_false]
    rw [List.take_of_length_le]
    omega

theorem foldl_addToHistory (es : List HistoryEntry) :
    ∀ acc : List HistoryEntry, acc.length ≤ maxHistory →
      es.foldl addToHistory acc = (es.reverse ++ acc).take maxHistory := by
  induction es with
  | nil =>
    intro acc hLen
    simp [List.take_of_length_le hLen]
  | cons e es ih =>
    intro acc hLen
    have h1 : addToHistory acc e = (e :: acc).take maxHistory := addToHistory_take acc e hLen
    have h2 : (addToHistory acc e).length ≤ maxHistory := by
      rw [h1, List.length_take]
      omega
    calc (e :: es).foldl addToHistory acc
        = es.foldl addToHistory (addToHistory acc e) := by rfl
      _ = (es.reverse ++ (e :: acc).take maxHistory).take maxHistory := by rw [ih _ h2, h1]
      _ = (es.reverse ++ (e :: acc)).take maxHistory := take_append_take _ _ _
      _ = ((e :: es).reverse ++ acc).take maxHistory := by simp

/-- C9: inserting more than the capacity (50) many pairwise distinct
entries into the empty history leaves exactly 50 entries, ordered
most recent first (the reversal of the insertion order, truncated to
the newest 50); the oldest inserted entry is absent; and reading the
50 most recent entries returns all 50 stored entries. -/
theorem history_bound (es : List HistoryEntry)
    (hLen : maxHistory < es.length) (hNodup : es.Nodup) :
    (es.foldl addToHistory []).length = maxHistory
    ∧ es.foldl addToHistory [] = es.reverse.take maxHistory
    ∧ getRecent (es.foldl addToHistory []) maxHistory = es.foldl addToHistory []
    ∧ (getRecent (es.foldl addToHistory []) maxHistory).length = maxHistory
    ∧ ∀ e0, es.head? = some e0 → e0 ∉ es.foldl addToHistory [] := by
  have hfold : es.foldl addToHistory [] = es.reverse.take maxHistory := by
    rw [foldl_addToHistory es [] (by simp)]
    simp
  have hlen : (es.foldl addToHistory []).length = maxHistory := by
    rw [hfold, List.length_take]
    simp
    omega
  have hrecent : getRecent (es.foldl addToHistory []) maxHistory = es.foldl addToHistory [] := by
    unfold getRecent
    rw [List.take_of_length_le]
    omega
  refine ⟨hlen, hfold, hrecent, by rw [hrecent]; exact hlen, ?_⟩
  intro e0 hHead hMem
  match es, hHead with
  | e0 :: tail, rfl =>
    rw [hfold] at hMem
    have htail : maxHistory ≤ tail.length := by
      simp at hLen
      omega
    have hsplit : (e0 :: tail).reverse.take maxHistory = tail.reverse.take maxHistory := by
      rw [List.reverse_cons, List.take_append_eq_append_take]
      have : maxHistory - tail.reverse.length = 0 := by
        simp
        omega
      rw [this]
      simp
    rw [hsplit] at hMem
    have : e0 ∈ tail := List.mem_reverse.mp (List.take_subset _ _ hMem)
    exact (List.nodup_cons.mp hNodup).1 this

/-- C9 witness: after inserting 51 distinct entries the history holds
exactly 50, reading the 50 most recent returns all of them, and the
first (oldest) inserted entry is gone. -/
theorem history_bound_witness :
    maxHistory < (manyEntries 51).length
    ∧ ((manyEntries 51).foldl addToHistory []).length = maxHistory
    ∧ (getRecent ((manyEntries 51).foldl addToHistory []) maxHistory).length = maxHistory
    ∧ histEntry 0 ∉ (manyEntries 51).foldl addToHistory [] := by
  have h := history_bound (manyEntries 51) (by decide)
    (by decide)
  exact ⟨by decide, h.1, h.2.2.2.1, h.2.2.2.2 (histEntry 0) (by decide)⟩

/-- C10 witness: recording a 7 sBTC payment on a fresh ledger bumps
both transaction counts to 1 and leaves every total at 0. -/
theorem getSummary_nonPrimary_witness :
    (getSummary (recordPayment ⟨[], 100, 10⟩ 3 7 "sBTC" "svc" "Svc" none) 0).today.transactions
        = (getSummary ⟨[], 100, 10⟩ 0).today.transactions + 1
    ∧ (getSummary (recordPayment ⟨[], 100, 10⟩ 3 7 "sBTC" "svc" "Svc" none) 0).allTime.total
        = (getSummary ⟨[], 100, 10⟩ 0).allTime.total := by
  have h := getSummary_nonPrimary ⟨[], 100, 10⟩ 0 3 7 "sBTC" "svc" "Svc" none (by decide) (by decide)
  exact ⟨h.1, h.2.2.2.1⟩

/-! ## Plan Builder claims -/

theorem sumPrices_append (a b : List X402Service) :
    sumPrices (a ++ b) = sumPrices a + sumPrices b := by
  simp [sumPrices, sumInts_append]

theorem mkStepsFrom_length (l : List X402Service) :
    ∀ idx, (mkStepsFrom idx l).length = l.length := by
  induction l with
  | nil => intro idx; rfl
  | cons s rest ih => intro idx; simp [mkStepsFrom, ih]

theorem sumCosts_mkStepsFrom (l : List X402Service) :
    ∀ idx, sumCosts (mkStepsFrom idx l) = sumPrices l := by
  induction l with
  | nil => intro idx; rfl
  | cons s rest ih =>
    intro idx
    show s.price.amount + sumCosts (mkStepsFrom (idx + 1) rest)
        = s.price.amount + sumPrices rest
    rw [ih]

theorem selectScored_le (ms : Nat) (B : Int) :
    ∀ (scored : List (X402Service × Int)) (sel : List X402Service) (cost : Int),
      cost ≤ B → (selectScored ms B scored sel cost).2 ≤ B := by
  intro scored
  induction scored with
  | nil => intro sel cost h; exact h
  | cons p rest ih =>
    intro sel cost h
    obtain ⟨s, score⟩ := p
    simp only [selectScored]
    split
    · exact h
    · split
      · exact h
      · split
        · next hle => exact ih _ _ hle
        · exact ih _ _ h

theorem selectScored_cases (ms : Nat) (B : Int) :
    ∀ (scored : List (X402Service × Int)) (sel : List X402Service) (cost : Int),
      selectScored ms B scored sel cost = (sel, cost)
      ∨ (selectScored ms B scored sel cost).2 ≤ B := by
  intro scored
  induction scored with
  | nil => intro sel cost; exact Or.inl rfl
  | cons p rest ih =>
    intro sel cost
    obtain ⟨s, score⟩ := p
    simp only [selectScored]
    split
    · exact Or.inl rfl
    · split
      · exact Or.inl rfl
      · split
        · next hle => exact Or.inr (selectScored_le ms B rest _ _ hle)
        · exact ih sel cost

theorem selectScored_len (ms : Nat) (B : Int) :
    ∀ (scored : List (X402Service × Int)) (sel : List X402Service) (cost : Int),
      sel.length ≤ ms → (selectScored ms B scored sel cost).1.length ≤ ms := by
  intro scored
  induction scored with
  | nil => intro sel cost h; exact h
  | cons p rest ih =>
    intro sel cost h
    obtain ⟨s, score⟩ := p
    simp only [selectScored]
    split
    · exact h
    · next hlt =>
      split
      · exact h
      · split
        · apply ih
          simp only [List.length_append, List.length_cons, List.length_nil]
          omega
        · exact ih _ _ h

theorem selectScored_sum (ms : Nat) (B : Int) :
    ∀ (scored : List (X402Service × Int)) (sel : List X402Service) (cost : Int),
      sumPrices sel = cost →
      sumPrices (selectScored ms B scored sel cost).1 = (selectScored ms B scored sel cost).2 := by
  intro scored
  induction scored with
  | nil => intro sel cost h; exact h
  | cons p rest ih =>
    intro sel cost h
    obtain ⟨s, score⟩ := p
    simp only [selectScored]
    split
    · exact h
    · split
      · exact h
      · split
        · apply ih
          rw [sumPrices_append, h]
          show cost + (s.price.amount + sumInts []) = cost + s.price.amount
          simp [sumInts]
        · exact ih _ _ h

theorem selectForTasks_le (services : List X402Service) (B : Int) :
    ∀ (tasks : List TaskPattern) (sel : List X402Service) (cost : Int),
      cost ≤ B → (selectForTasks services B tasks sel cost).2 ≤ B := by
  intro tasks
  induction tasks with
  | nil => intro sel cost h; exact h
  | cons task rest ih =>
    intro sel cost h
    simp only [selectForTasks]
    split
    · split
      · split
        · next hle => exact ih _ _ hle
        · exact ih _ _ h
      · exact ih _ _ h
    · exact ih _ _ h

theorem selectForTasks_cases (services : List X402Service) (B : Int) :
    ∀ (tasks : List TaskPattern) (sel : List X402Service) (cost : Int),
      selectForTasks services B tasks sel cost = (sel, cost)
      ∨ (selectForTasks services B tasks sel cost).2 ≤ B := by
  intro tasks
  induction tasks with
  | nil => intro sel cost; exact Or.inl rfl
  | cons task rest ih =>
    intro sel cost
    simp only [selectForTasks]
    split
    · split
      · split
        · next hle => exact Or.inr (selectForTasks_le services B rest _ _ hle)
        · exact ih sel cost
      · exact ih sel cost
    · exact ih sel cost

theorem selectForTasks_len (services : List X402Service) (B : Int) :
    ∀ (tasks : List TaskPattern) (sel : List X402Service) (cost : Int),
      (selectForTasks services B tasks sel cost).1.length ≤ sel.length + tasks.length := by
  intro tasks
  induction tasks with
  | nil => intro sel cost; simp [selectForTasks]
  | cons task rest ih =>
    intro sel cost
    simp only [selectForTasks]
    split
    · rename_i best bestScore heq
      split
      · split
        · have h1 := ih (sel ++ [best]) (cost + best.price.amount)
          simp only [List.length_append, List.length_cons, List.length_nil] at h1 ⊢
          omega
        · have h1 := ih sel cost
          simp only [List.length_cons]
          omega
      · have h1 := ih sel cost
        simp only [List.length_cons]
        omega
    · have h1 := ih sel cost
      simp only [List.length_cons]
      omega

theorem selectForTasks_sum (services : List X402Service) (B : Int) :
    ∀ (tasks : List TaskPattern) (sel : List X402Service) (cost : Int),
      sumPrices sel = cost →
      sumPrices (selectForTasks services B tasks sel cost).1
        = (selectForTasks services B tasks sel cost).2 := by
  intro tasks
  induction tasks with
  | nil => intro sel cost h; exact h
  | cons task rest ih =>
    intro sel cost h
    simp only [selectForTasks]
    split
    · split
      · split
        · apply ih
          rw [sumPrices_append, h]
          show cost + (_ + sumInts []) = cost + _
          simp [sumInts]
        · exact ih _ _ h
      · exact ih _ _ h
    · exact ih _ _ h

theorem cheapestFallback_spec (services : List X402Service) (B : Int)
    (sel : List X402Service) (cost : Int)
    (h : cheapestFallback services B = some (sel, cost)) :
    sumPrices sel = cost ∧ cost ≤ B ∧ sel.length = 1 := by
  unfold cheapestFallback at h
  rcases hcs : cheapestService services with _ | ch
  · rw [hcs] at h
    cases h
  · rw [hcs] at h
    change (if ch.price.amount ≤ B then some ([ch], ch.price.amount) else none)
        = some (sel, cost) at h
    by_cases hb : ch.price.amount ≤ B
    · rw [if_pos hb] at h
      injection h with h
      obtain ⟨h1, h2⟩ := Prod.mk.injEq .. ▸ h
      subst h1
      subst h2
      refine ⟨?_, hb, rfl⟩
      show ch.price.amount + sumInts [] = ch.price.amount
      simp [sumInts]
    · rw [if_neg hb] at h
      cases h

theorem finalizePlan_spec (nowMs : Nat) (query : String) (services : List X402Service)
    (B : Int) (picked : List X402Service × Int) (plan : TaskPlan)
    (hSum : sumPrices picked.1 = picked.2)
    (hLe : picked.1 = [] ∨ picked.2 ≤ B)
    (h : finalizePlan nowMs query services B picked = some plan) :
    sumCosts plan.steps ≤ B
    ∧ (plan.steps.length = picked.1.length ∨ plan.steps.length = 1) := by
  unfold finalizePlan at h
  by_cases hE : picked.1.isEmpty
  · rw [if_pos hE] at h
    rcases hcf : cheapestFallback services B with _ | ⟨sel, cost⟩
    · rw [hcf] at h
      cases h
    · rw [hcf] at h
      obtain ⟨hS, hC, hL⟩ := cheapestFallback_spec services B sel cost hcf
      change some (mkHeuristicPlan nowMs query sel cost) = some plan at h
      injection h with h
      subst h
      constructor
      · show sumCosts (mkStepsFrom 0 sel) ≤ B
        rw [sumCosts_mkStepsFrom, hS]
        exact hC
      · right
        show (mkStepsFrom 0 sel).length = 1
        rw [mkStepsFrom_length]
        exact hL
  · rw [if_neg hE] at h
    change some (mkHeuristicPlan nowMs query picked.1 picked.2) = some plan at h
    injection h with h
    subst h
    have hNE : picked.1 ≠ [] := by
      intro hc
      rw [hc] at hE
      exact hE rfl
    rcases hLe with hc | hc
    · exact absurd hc hNE
    constructor
    · show sumCosts (mkStepsFrom 0 picked.1) ≤ B
      rw [sumCosts_mkStepsFrom, hSum]
      exact hc
    · left
      show (mkStepsFrom 0 picked.1).length = picked.1.length
      exact mkStepsFrom_length _ _

theorem createKeywordBasedPlan_spec (nowMs : Nat) (query : String)
    (services : List X402Service) (ms : Nat) (B : Int) (plan : TaskPlan)
    (h : createKeywordBasedPlan nowMs query services ms B = some plan) :
    sumCosts plan.steps ≤ B ∧ (1 ≤ ms → plan.steps.length ≤ ms) := by
  unfold createKeywordBasedPlan at h
  have hSum := selectScored_sum ms B
    (stableSort kwLe (services.map fun s => (s, keywordScore (queryWords query) s))) [] 0 rfl
  have hLe : (selectScored ms B
      (stableSort kwLe (services.map fun s => (s, keywordScore (queryWords query) s))) [] 0).1 = []
      ∨ (selectScored ms B
      (stableSort kwLe (services.map fun s => (s, keywordScore (queryWords query) s))) [] 0).2 ≤ B := by
    rcases selectScored_cases ms B
      (stableSort kwLe (services.map fun s => (s, keywordScore (queryWords query) s))) [] 0 with hc | hc
    · left
      rw [hc]
    · right
      exact hc
  obtain ⟨hB, hLen⟩ := finalizePlan_spec nowMs query services B _ plan hSum hLe h
  refine ⟨hB, fun hms => ?_⟩
  rcases hLen with hL | hL
  · rw [hL]
    exact selectScored_len ms B _ [] 0 (by simp)
  · omega

theorem createHeuristicPlan_spec (nowMs : Nat) (query : String)
    (detected : List TaskPattern) (services : List X402Service) (ms : Nat) (B : Int)
    (plan : TaskPlan)
    (h : createHeuristicPlan nowMs query detected services ms B = some plan) :
    sumCosts plan.steps ≤ B ∧ (1 ≤ ms → plan.steps.length ≤ ms) := by
  unfold createHeuristicPlan at h
  by_cases hD : detected.isEmpty
  · rw [if_pos hD] at h
    exact createKeywordBasedPlan_spec nowMs query services ms B plan h
  · rw [if_neg hD] at h
    have hSum := selectForTasks_sum services B (detected.take ms) [] 0 rfl
    have hLe : (selectForTasks services B (detected.take ms) [] 0).1 = []
        ∨ (selectForTasks services B (detected.take ms) [] 0).2 ≤ B := by
      rcases selectForTasks_cases services B (detected.take ms) [] 0 with hc | hc
      · left
        rw [hc]
      · right
        exact hc
    obtain ⟨hB, hLen⟩ := finalizePlan_spec nowMs query services B _ plan hSum hLe h
    refine ⟨hB, fun hms => ?_⟩
    rcases hLen with hL | hL
    · rw [hL]
      have h1 := selectForTasks_len services B (detected.take ms) [] 0
      have h2 : (detected.take ms).length ≤ ms := by
        rw [List.length_take]
        omega
      simp only [List.length_nil] at h1
      omega
    · omega

theorem one_le_effectiveMaxSteps (o : Option Nat) : 1 ≤ effectiveMaxSteps o := by
  rcases o with _ | n
  · decide
  · show 1 ≤ effectiveMaxSteps (some n)
    unfold effectiveMaxSteps
    by_cases hn : n = 0
    · subst hn
      decide
    · have hb : (n == 0) = false := by simpa using hn
      simp only [hb, if_false]
      exact Nat.one_le_iff_ne_zero.mpr hn

/-- C1 (amended): whenever the Plan Builder serves a request through
either heuristic tier (that is, the AI tier is unavailable or its
call failed), the sum of the estimated step costs of the returned
plan is at most the effective requested budget.  The AI tier applies
no such check (see the counterexample). -/
theorem createPlan_heuristic_budget (nowMs : Nat) (query : String)
    (detected : List TaskPattern) (services : List X402Service)
    (mbo : Option Int) (mso : Option Nat) (ai : AIOutcome) (plan : TaskPlan)
    (hai : ai = .unavailable ∨ ai = .failed)
    (h : createPlan nowMs query detected services mbo mso ai = some plan) :
    sumCosts plan.steps ≤ effectiveMaxBudget mbo := by
  rcases hai with rfl | rfl
  · unfold createPlan at h
    exact (createHeuristicPlan_spec _ _ _ _ _ _ _ h).1
  · unfold createPlan at h
    exact (createHeuristicPlan_spec _ _ _ _ _ _ _ h).1

/-- C1 witness: with no AI client, a catalog holding one service
priced 40 and a requested budget of 50, the produced plan costs at
most 50. -/
theorem createPlan_heuristic_budget_witness :
    (createPlan 0 "latest news" [] [cxService2] (some 50) none .unavailable).isSome = true
    ∧ sumCosts (((createPlan 0 "latest news" [] [cxService2] (some 50) none .unavailable).getD dummyPlan).steps)
        ≤ effectiveMaxBudget (some 50) := by
  refine ⟨rfl, ?_⟩
  exact createPlan_heuristic_budget 0 "latest news" [] [cxService2] (some 50) none
    .unavailable _ (Or.inl rfl) rfl

/-- C1 counterexample: the AI tier of the Plan Builder returns plans
whose estimated cost exceeds the requested budget.  With a requested
budget of 1 microSTX and a model answer naming the 100 microSTX
service, `createPlan` returns a plan whose step costs sum to 100. -/
theorem ai_plan_exceeds_budget :
    createPlan 0 "get bitcoin price" [] [cxService] (some 1) none (.ok cxAISpec)
        = some (createAIPlan 0 "get bitcoin price" [cxService] 5 1 cxAISpec)
    ∧ sumCosts (createAIPlan 0 "get bitcoin price" [cxService] 5 1 cxAISpec).steps = 100
    ∧ effectiveMaxBudget (some 1) = 1
    ∧ ¬ sumCosts (createAIPlan 0 "get bitcoin price" [cxService] 5 1 cxAISpec).steps
        ≤ effectiveMaxBudget (some 1) := by
  refine ⟨rfl, rfl, rfl, ?_⟩
  decide

/-- C5 (amended): whenever the Plan Builder serves a request through
either heuristic tier, the returned plan has at most the effective
requested number of steps (5 by default).  The AI tier applies no
such cap (see the counterexample). -/
theorem createPlan_heuristic_step_count (nowMs : Nat) (query : String)
    (detected : List TaskPattern) (services : List X402Service)
    (mbo : Option Int) (mso : Option Nat) (ai : AIOutcome) (plan : TaskPlan)
    (hai : ai = .unavailable ∨ ai = .failed)
    (h : createPlan nowMs query detected services mbo mso ai = some plan) :
    plan.steps.length ≤ effectiveMaxSteps mso := by
  rcases hai with rfl | rfl
  · unfold createPlan at h
    exact (createHeuristicPlan_spec _ _ _ _ _ _ _ h).2 (one_le_effectiveMaxSteps mso)
  · unfold createPlan at h
    exact (createHeuristicPlan_spec _ _ _ _ _ _ _ h).2 (one_le_effectiveMaxSteps mso)

/-- C5 witness: the heuristic plan for a one-service catalog has at
most the default 5 steps. -/
theorem createPlan_heuristic_step_count_witness :
    (createPlan 0 "latest news" [] [cxService2] (some 50) none .unavailable).isSome = true
    ∧ (((createPlan 0 "latest news" [] [cxService2] (some 50) none .unavailable).getD dummyPlan).steps).length
        ≤ effectiveMaxSteps none := by
  refine ⟨rfl, ?_⟩
  exact createPlan_heuristic_step_count 0 "latest news" [] [cxService2] (some 50) none
    .unavailable _ (Or.inl rfl) rfl

/-! ## Pipeline Orchestrator lemmas -/

theorem eventIdxLt_mono {m n : Nat} (h : m ≤ n) (e : OrchEvent)
    (hlt : eventIdxLt m e) : eventIdxLt n e := by
  cases e <;> simp [eventIdxLt] at * <;> omega

theorem eventIdxGe_mono {m n : Nat} (h : m ≤ n) (e : OrchEvent)
    (hge : eventIdxGe n e) : eventIdxGe m e := by
  cases e <;> simp [eventIdxGe] at * <;> omega

theorem executeStep_error_iff (A : List X402Service) (r : PayReply) (now : Nat)
    (tracker : SpendingTracker) (step : TaskStep) (vars : Vars) (e : String) :
    executeStep A r now tracker step vars = .error e ↔ stepFailureOf A r step = some e := by
  unfold executeStep stepFailureOf
  cases hf : A.find? fun s => s.id == step.serviceId with
  | none => simp
  | some svc =>
    by_cases hs : (!r.payment.success) = true
    · simp [hs]
    · simp [hs]

theorem executeStep_ok_failure_none (A : List X402Service) (r : PayReply) (now : Nat)
    (tracker : SpendingTracker) (step : TaskStep) (vars : Vars)
    (pr : StepResult × SpendingTracker)
    (h : executeStep A r now tracker step vars = .ok pr) :
    stepFailureOf A r step = none := by
  unfold executeStep at h
  unfold stepFailureOf
  cases hf : A.find? fun s => s.id == step.serviceId with
  | none =>
    rw [hf] at h
    cases h
  | some svc =>
    rw [hf] at h
    by_cases hs : (!r.payment.success) = true
    · simp only [hs, if_true] at h
      cases h
    · simp [hs]

theorem okState_events (st : RunState) (i : Nat) (result : StepResult)
    (tracker2 : SpendingTracker) :
    (okState st i result tracker2).events
      = st.events ++ [.stepStart i, .stepComplete i] := rfl

theorem errState_events (st : RunState) (i : Nat) (step : TaskStep) (e : String) :
    (errState st i step e).events
      = st.events ++ [.stepStart i, .stepError i e] := rfl

theorem invariant_okState (st : RunState) (i0 : Nat)
    (hInv : ∀ e ∈ st.events, eventIdxLt i0 e)
    (result : StepResult) (tracker2 : SpendingTracker) :
    ∀ e ∈ (okState st i0 result tracker2).events, eventIdxLt (i0 + 1) e := by
  intro ev hev
  rw [okState_events] at hev
  rcases List.mem_append.mp hev with h | h
  · exact eventIdxLt_mono (Nat.le_succ i0) ev (hInv ev h)
  · simp only [List.mem_cons, List.not_mem_nil, or_false] at h
    rcases h with rfl | rfl <;> simp [eventIdxLt]

theorem invariant_errState (st : RunState) (i0 : Nat)
    (hInv : ∀ e ∈ st.events, eventIdxLt i0 e)
    (step : TaskStep) (e : String) :
    ∀ ev ∈ (errState st i0 step e).events, eventIdxLt (i0 + 1) ev := by
  intro ev hev
  rw [errState_events] at hev
  rcases List.mem_append.mp hev with h | h
  · exact eventIdxLt_mono (Nat.le_succ i0) ev (hInv ev h)
  · simp only [List.mem_cons, List.not_mem_nil, or_false] at h
    rcases h with rfl | rfl <;> simp [eventIdxLt]

theorem runSteps_events_shape (A : List X402Service) (R : Nat → PayReply) (now : Nat) :
    ∀ (steps : List TaskStep) (i0 : Nat) (st0 : RunState),
      ∃ new, (runSteps A R now steps i0 st0).1.events = st0.events ++ new
        ∧ ∀ e ∈ new, eventIdxGe i0 e := by
  intro steps
  induction steps with
  | nil =>
    intro i0 st0
    exact ⟨[], by simp [runSteps], by simp⟩
  | cons step rest ih =>
    intro i0 st0
    simp only [runSteps]
    rcases hex : executeStep A (R i0) now st0.tracker step st0.ctx.vars with e | pr
    · simp only [hex]
      by_cases hreq : (step.required != some false) = true
      · simp only [hreq, if_true]
        refine ⟨[.stepStart i0, .stepError i0 e], errState_events st0 i0 step e, ?_⟩
        intro ev hev
        simp only [List.mem_cons, List.not_mem_nil, or_false] at hev
        rcases hev with rfl | rfl <;> simp [eventIdxGe]
      · simp only [Bool.not_eq_true] at hreq
        simp only [hreq, Bool.false_eq_true, if_false]
        obtain ⟨new, hnew, hge⟩ := ih (i0 + 1) (errState st0 i0 step e)
        refine ⟨[.stepStart i0, .stepError i0 e] ++ new, ?_, ?_⟩
        · rw [hnew, errState_events, List.append_assoc]
        · intro ev hev
          rcases List.mem_append.mp hev with h | h
          · simp only [List.mem_cons, List.not_mem_nil, or_false] at h
            rcases h with rfl | rfl <;> simp [eventIdxGe]
          · exact eventIdxGe_mono (Nat.le_succ i0) ev (hge ev h)
    · simp only [hex]
      obtain ⟨result, tracker2⟩ := pr
      obtain ⟨new, hnew, hge⟩ := ih (i0 + 1) (okState st0 i0 result tracker2)
      refine ⟨[.stepStart i0, .stepComplete i0] ++ new, ?_, ?_⟩
      · rw [hnew, okState_events, List.append_assoc]
      · intro ev hev
        rcases List.mem_append.mp hev with h | h
        · simp only [List.mem_cons, List.not_mem_nil, or_false] at h
          rcases h with rfl | rfl <;> simp [eventIdxGe]
        · exact eventIdxGe_mono (Nat.le_succ i0) ev (hge ev h)

/-- No step error event for index `i0` can come out of the loop
continuing after a successful step at `i0`. -/
theorem no_stepError_at_ok (A : List X402Service) (R : Nat → PayReply) (now : Nat)
    (rest : List TaskStep) (i0 : Nat) (st0 : RunState)
    (result : StepResult) (tracker2 : SpendingTracker) (msg : String)
    (hInv : ∀ e ∈ st0.events, eventIdxLt i0 e) :
    OrchEvent.stepError i0 msg
      ∉ (runSteps A R now rest (i0 + 1) (okState st0 i0 result tracker2)).1.events := by
  intro hMem
  obtain ⟨new, hnew, hge⟩ := runSteps_events_shape A R now rest (i0 + 1) (okState st0 i0 result tracker2)
  rw [hnew] at hMem
  rcases List.mem_append.mp hMem with h | h
  · rw [okState_events] at h
    rcases List.mem_append.mp h with h2 | h2
    · have hlt := hInv _ h2
      simp [eventIdxLt] at hlt
    · simp only [List.mem_cons, List.not_mem_nil, or_false] at h2
      rcases h2 with h2 | h2 <;> cases h2
  · have hgee := hge _ h
    simp [eventIdxGe] at hgee

/-- A step error event for index `i0` coming out of the loop
continuing after a failed optional step at `i0` carries that step's
error message. -/
theorem stepError_msg_at_errState (A : List X402Service) (R : Nat → PayReply) (now : Nat)
    (rest : List TaskStep) (i0 : Nat) (st0 : RunState)
    (step : TaskStep) (e msg : String)
    (hInv : ∀ ev ∈ st0.events, eventIdxLt i0 ev)
    (hMem : OrchEvent.stepError i0 msg
      ∈ (runSteps A R now rest (i0 + 1) (errState st0 i0 step e)).1.events) :
    msg = e := by
  obtain ⟨new, hnew, hge⟩ := runSteps_events_shape A R now rest (i0 + 1) (errState st0 i0 step e)
  rw [hnew] at hMem
  rcases List.mem_append.mp hMem with h | h
  · rw [errState_events] at h
    rcases List.mem_append.mp h with h2 | h2
    · have hlt := hInv _ h2
      simp [eventIdxLt] at hlt
    · rcases List.mem_cons.mp h2 with h3 | h3
      · cases h3
      · rcases List.mem_cons.mp h3 with h4 | h4
        · cases h4
          rfl
        · exact absurd h4 (List.not_mem_nil _)
  · have hgee := hge _ h
    simp [eventIdxGe] at hgee

/-- A step error event emitted by the loop names the error
`executeStep` produces for that step, which is a function of the
catalog and that step's payment reply alone. -/
theorem runSteps_error_msg (A : List X402Service) (R : Nat → PayReply) (now : Nat) :
    ∀ (steps : List TaskStep) (i0 : Nat) (st0 : RunState) (i : Nat) (msg : String),
      (∀ e ∈ st0.events, eventIdxLt i0 e) →
      i0 ≤ i →
      OrchEvent.stepError i msg ∈ (runSteps A R now steps i0 st0).1.events →
      ∃ step, steps.get? (i - i0) = some step ∧ stepFailureOf A (R i) step = some msg := by
  intro steps
  induction steps with
  | nil =>
    intro i0 st0 i msg hInv hle hMem
    simp only [runSteps] at hMem
    have hlt := hInv _ hMem
    simp only [eventIdxLt] at hlt
    exact absurd hle (by omega)
  | cons step rest ih =>
    intro i0 st0 i msg hInv hle hMem
    simp only [runSteps] at hMem
    rcases hex : executeStep A (R i0) now st0.tracker step st0.ctx.vars with e | pr
    · simp only [hex] at hMem
      by_cases hreq : (step.required != some false) = true
      · simp only [hreq, if_true] at hMem
        rw [errState_events] at hMem
        rcases List.mem_append.mp hMem with h | h
        · have hlt := hInv _ h
          simp only [eventIdxLt] at hlt
          exact absurd hle (by omega)
        · rcases List.mem_cons.mp h with h3 | h3
          · cases h3
          · rcases List.mem_cons.mp h3 with h4 | h4
            · cases h4
              refine ⟨step, by simp, ?_⟩
              exact (executeStep_error_iff A (R i0) now st0.tracker step st0.ctx.vars msg).mp hex
            · exact absurd h4 (List.not_mem_nil _)
      · simp only [Bool.not_eq_true] at hreq
        simp only [hreq, Bool.false_eq_true, if_false] at hMem
        by_cases hi : i = i0
        · subst hi
          have hmsg := stepError_msg_at_errState A R now rest i st0 step e msg hInv hMem
          subst hmsg
          refine ⟨step, by simp, ?_⟩
          exact (executeStep_error_iff A (R i) now st0.tracker step st0.ctx.vars msg).mp hex
        · have hle2 : i0 + 1 ≤ i := by omega
          obtain ⟨step', hget, hfail⟩ := ih (i0 + 1) (errState st0 i0 step e) i msg
            (invariant_errState st0 i0 hInv step e) hle2 hMem
          refine ⟨step', ?_, hfail⟩
          have hidx : i - i0 = (i - (i0 + 1)) + 1 := by omega
          rw [hidx, List.get?_cons_succ]
          exact hget
    · obtain ⟨result, tracker2⟩ := pr
      simp only [hex] at hMem
      by_cases hi : i = i0
      · subst hi
        exact absurd hMem (no_stepError_at_ok A R now rest i st0 result tracker2 msg hInv)
      · have hle2 : i0 + 1 ≤ i := by omega
        obtain ⟨step', hget, hfail⟩ := ih (i0 + 1) (okState st0 i0 result tracker2) i msg
          (invariant_okState st0 i0 hInv result tracker2) hle2 hMem
        refine ⟨step', ?_, hfail⟩
        have hidx : i - i0 = (i - (i0 + 1)) + 1 := by omega
        rw [hidx, List.get?_cons_succ]
        exact hget

/-- Once a step whose required flag is not `false` fails, the loop
aborts with `Required step failed:` followed by that step's error,
and no step started event for any later index is in the emitted
events. -/
theorem runSteps_abort (A : List X402Service) (R : Nat → PayReply) (now : Nat) :
    ∀ (steps : List TaskStep) (i0 : Nat) (st0 : RunState) (i : Nat) (msg : String),
      (∀ e ∈ st0.events, eventIdxLt i0 e) →
      i0 ≤ i →
      OrchEvent.stepError i msg ∈ (runSteps A R now steps i0 st0).1.events →
      (∀ step, steps.get? (i - i0) = some step → step.required ≠ some false) →
      (runSteps A R now steps i0 st0).2 = some ("Required step failed: " ++ msg)
      ∧ ∀ j, i < j → OrchEvent.stepStart j ∉ (runSteps A R now steps i0 st0).1.events := by
  intro steps
  induction steps with
  | nil =>
    intro i0 st0 i msg hInv hle hMem hReq
    simp only [runSteps] at hMem
    have hlt := hInv _ hMem
    simp only [eventIdxLt] at hlt
    exact absurd hle (by omega)
  | cons step rest ih =>
    intro i0 st0 i msg hInv hle hMem hReq
    simp only [runSteps] at hMem ⊢
    rcases hex : executeStep A (R i0) now st0.tracker step st0.ctx.vars with e | pr
    · simp only [hex] at hMem ⊢
      by_cases hreq : (step.required != some false) = true
      · simp only [hreq, if_true] at hMem ⊢
        rw [errState_events] at hMem
        rcases List.mem_append.mp hMem with h | h
        · have hlt := hInv _ h
          simp only [eventIdxLt] at hlt
          exact absurd hle (by omega)
        · rcases List.mem_cons.mp h with h3 | h3
          · cases h3
          · rcases List.mem_cons.mp h3 with h4 | h4
            · cases h4
              refine ⟨rfl, ?_⟩
              intro j hj hmemj
              rw [errState_events] at hmemj
              rcases List.mem_append.mp hmemj with h5 | h5
              · have hlt := hInv _ h5
                simp only [eventIdxLt] at hlt
                omega
              · rcases List.mem_cons.mp h5 with h6 | h6
                · injection h6 with h7
                  omega
                · rcases List.mem_cons.mp h6 with h7 | h7
                  · cases h7
                  · exact absurd h7 (List.not_mem_nil _)
            · exact absurd h4 (List.not_mem_nil _)
      · simp only [Bool.not_eq_true] at hreq
        simp only [hreq, Bool.false_eq_true, if_false] at hMem ⊢
        have hreqEq : step.required = some false := by
          simpa using hreq
        by_cases hi : i = i0
        · subst hi
          have := hReq step (by simp)
          exact absurd hreqEq this
        · have hle2 : i0 + 1 ≤ i := by omega
          have hidx : i - i0 = (i - (i0 + 1)) + 1 := by omega
          refine ih (i0 + 1) (errState st0 i0 step e) i msg
            (invariant_errState st0 i0 hInv step e) hle2 hMem ?_
          intro step' hget
          refine hReq step' ?_
          rw [hidx, List.get?_cons_succ]
          exact hget
    · obtain ⟨result, tracker2⟩ := pr
      simp only [hex] at hMem ⊢
      by_cases hi : i = i0
      · subst hi
        exact absurd hMem (no_stepError_at_ok A R now rest i st0 result tracker2 msg hInv)
      · have hle2 : i0 + 1 ≤ i := by omega
        have hidx : i - i0 = (i - (i0 + 1)) + 1 := by omega
        refine ih (i0 + 1) (okState st0 i0 result tracker2) i msg
          (invariant_okState st0 i0 hInv result tracker2) hle2 hMem ?_
        intro step' hget
        refine hReq step' ?_
        rw [hidx, List.get?_cons_succ]
        exact hget

/-- If a step was started and `executeStep` fails it (service missing
or payment failure), the matching step error event is emitted. -/
theorem runSteps_start_error (A : List X402Service) (R : Nat → PayReply) (now : Nat) :
    ∀ (steps : List TaskStep) (i0 : Nat) (st0 : RunState) (i : Nat),
      (∀ e ∈ st0.events, eventIdxLt i0 e) →
      i0 ≤ i →
      OrchEvent.stepStart i ∈ (runSteps A R now steps i0 st0).1.events →
      ∀ step e, steps.get? (i - i0) = some step →
        stepFailureOf A (R i) step = some e →
        OrchEvent.stepError i e ∈ (runSteps A R now steps i0 st0).1.events := by
  intro steps
  induction steps with
  | nil =>
    intro i0 st0 i hInv hle hMem step e hget hfail
    simp only [runSteps] at hMem
    have hlt := hInv _ hMem
    simp only [eventIdxLt] at hlt
    exact absurd hle (by omega)
  | cons step0 rest ih =>
    intro i0 st0 i hInv hle hMem step e hget hfail
    simp only [runSteps] at hMem ⊢
    rcases hex : executeStep A (R i0) now st0.tracker step0 st0.ctx.vars with e' | pr
    · simp only [hex] at hMem ⊢
      by_cases hreq : (step0.required != some false) = true
      · simp only [hreq, if_true] at hMem ⊢
        rw [errState_events] at hMem
        rcases List.mem_append.mp hMem with h | h
        · have hlt := hInv _ h
          simp only [eventIdxLt] at hlt
          exact absurd hle (by omega)
        · rcases List.mem_cons.mp h with h3 | h3
          · injection h3 with h4
            subst h4
            rw [Nat.sub_self, List.get?_cons_zero] at hget
            injection hget with hget
            subst hget
            have heq : e = e' := by
              have h5 := (executeStep_error_iff A (R i) now st0.tracker step0 st0.ctx.vars e').mp hex
              rw [hfail] at h5
              injection h5 with h5
            subst heq
            rw [errState_events]
            simp
          · rcases List.mem_cons.mp h3 with h4 | h4
            · cases h4
            · exact absurd h4 (List.not_mem_nil _)
      · simp only [Bool.not_eq_true] at hreq
        simp only [hreq, Bool.false_eq_true, if_false] at hMem ⊢
        by_cases hi : i = i0
        · subst hi
          rw [Nat.sub_self, List.get?_cons_zero] at hget
          injection hget with hget
          subst hget
          have heq : e = e' := by
            have h5 := (executeStep_error_iff A (R i) now st0.tracker step0 st0.ctx.vars e').mp hex
            rw [hfail] at h5
            injection h5 with h5
          subst heq
          obtain ⟨new, hnew, hge⟩ := runSteps_events_shape A R now rest (i + 1) (errState st0 i step0 e)
          rw [hnew, errState_events]
          simp
        · have hle2 : i0 + 1 ≤ i := by omega
          have hidx : i - i0 = (i - (i0 + 1)) + 1 := by omega
          refine ih (i0 + 1) (errState st0 i0 step0 e') i
            (invariant_errState st0 i0 hInv step0 e') hle2 hMem step e ?_ hfail
          rw [← List.get?_cons_succ (a := step0), ← hidx]
          exact hget
    · obtain ⟨result, tracker2⟩ := pr
      simp only [hex] at hMem ⊢
      by_cases hi : i = i0
      · subst hi
        rw [Nat.sub_self, List.get?_cons_zero] at hget
        injection hget with hget
        subst hget
        have hnone := executeStep_ok_failure_none A (R i) now st0.tracker step0 st0.ctx.vars
          (result, tracker2) hex
        rw [hfail] at hnone
        cases hnone
      · have hle2 : i0 + 1 ≤ i := by omega
        have hidx : i - i0 = (i - (i0 + 1)) + 1 := by omega
        refine ih (i0 + 1) (okState st0 i0 result tracker2) i
          (invariant_okState st0 i0 hInv result tracker2) hle2 hMem step e ?_ hfail
        rw [← List.get?_cons_succ (a := step0), ← hidx]
        exact hget

/-- Exhaustive description of what `executePipeline` can return when
given a plan: one of the two pre-loop failures (empty catalog or
unusable plan, with no events; budget rejection, with only the plan
created event), the abort outcome of the step loop, or the success
outcome. -/
theorem executePipeline_cases (pid query : String) (now todayStart : Nat)
    (A : List X402Service) (plan : TaskPlan) (R : Nat → PayReply)
    (tracker : SpendingTracker) (memory : List PipelineResult) (out : PipelineOutcome)
    (hOut : executePipeline pid query now todayStart A (some plan) R tracker memory = out) :
    (∃ msg, out = ⟨mkFailedResult pid query msg, [], tracker, memory⟩)
    ∨ (∃ msg, out = ⟨mkFailedResult pid query msg, [.planCreated], tracker, memory⟩)
    ∨ (∃ err, (runSteps A R now plan.steps 0 (initialRunState pid query tracker)).2 = some err
        ∧ out = ⟨mkFailedResult pid query err,
            (runSteps A R now plan.steps 0 (initialRunState pid query tracker)).1.events,
            (runSteps A R now plan.steps 0 (initialRunState pid query tracker)).1.tracker,
            memory⟩)
    ∨ ((runSteps A R now plan.steps 0 (initialRunState pid query tracker)).2 = none
        ∧ out = successOutcome pid query plan
            (runSteps A R now plan.steps 0 (initialRunState pid query tracker)).1 memory) := by
  simp only [executePipeline] at hOut
  split at hOut
  · exact Or.inl ⟨_, hOut.symm⟩
  · split at hOut
    · exact Or.inl ⟨_, hOut.symm⟩
    · split at hOut
      · exact Or.inr (Or.inl ⟨_, hOut.symm⟩)
      · split at hOut
        · next err heq => exact Or.inr (Or.inr (Or.inl ⟨err, heq, hOut.symm⟩))
        · next heq => exact Or.inr (Or.inr (Or.inr ⟨heq, hOut.symm⟩))

/-- Without a plan, `executePipeline` returns a catch-path result with
no events and untouched ledger and memory. -/
theorem executePipeline_none_cases (pid query : String) (now todayStart : Nat)
    (A : List X402Service) (R : Nat → PayReply)
    (tracker : SpendingTracker) (memory : List PipelineResult) (out : PipelineOutcome)
    (hOut : executePipeline pid query now todayStart A none R tracker memory = out) :
    ∃ msg, out = ⟨mkFailedResult pid query msg, [], tracker, memory⟩ := by
  simp only [executePipeline] at hOut
  split at hOut
  · exact ⟨_, hOut.symm⟩
  · exact ⟨_, hOut.symm⟩

/-- C2 (amended): every failed run, whatever the cause (empty catalog,
no plan, budget rejection, or a required step failure mid-run), ends
with a catch-path `PipelineResult` that carries the error text but an
empty `stepResults` list, a `totalCost` of zero and no plan, and that
result is not persisted to the pipeline memory (the claim as written
says the opposite: that the aborted result captures the attempted
steps, the incurred spend and the plan and is persisted). -/
theorem failed_run_result_shape (pid query : String) (now todayStart : Nat)
    (A : List X402Service) (planOpt : Option TaskPlan) (R : Nat → PayReply)
    (tracker : SpendingTracker) (memory : List PipelineResult)
    (h : (executePipeline pid query now todayStart A planOpt R tracker memory).result.success = false) :
    (executePipeline pid query now todayStart A planOpt R tracker memory).result.stepResults = []
    ∧ (executePipeline pid query now todayStart A planOpt R tracker memory).result.totalCost = 0
    ∧ (executePipeline pid query now todayStart A planOpt R tracker memory).result.plan = none
    ∧ (executePipeline pid query now todayStart A planOpt R tracker memory).result.error.isSome = true
    ∧ (executePipeline pid query now todayStart A planOpt R tracker memory).memory = memory := by
  rcases planOpt with _ | plan
  · obtain ⟨msg, hout⟩ := executePipeline_none_cases pid query now todayStart A R tracker memory _ rfl
    rw [hout]
    exact ⟨rfl, rfl, rfl, rfl, rfl⟩
  · rcases executePipeline_cases pid query now todayStart A plan R tracker memory _ rfl with
      ⟨msg, hout⟩ | ⟨msg, hout⟩ | ⟨err, hrun, hout⟩ | ⟨hrun, hout⟩
    · rw [hout]
      exact ⟨rfl, rfl, rfl, rfl, rfl⟩
    · rw [hout]
      exact ⟨rfl, rfl, rfl, rfl, rfl⟩
    · rw [hout]
      exact ⟨rfl, rfl, rfl, rfl, rfl⟩
    · rw [hout] at h
      simp [successOutcome] at h

/-- C2 witness: a concrete aborted run (step 2 of 2 fails) has the
catch-path shape. -/
theorem failed_run_result_shape_witness :
    (executePipeline "p1" "q" 10 0 [cxService, cxService2] (some cxPlan2) cxRepliesFailSecond cxTracker []).result.success = false
    ∧ (executePipeline "p1" "q" 10 0 [cxService, cxService2] (some cxPlan2) cxRepliesFailSecond cxTracker []).result.stepResults = []
    ∧ (executePipeline "p1" "q" 10 0 [cxService, cxService2] (some cxPlan2) cxRepliesFailSecond cxTracker []).result.totalCost = 0
    ∧ (executePipeline "p1" "q" 10 0 [cxService, cxService2] (some cxPlan2) cxRepliesFailSecond cxTracker []).result.plan = none
    ∧ (executePipeline "p1" "q" 10 0 [cxService, cxService2] (some cxPlan2) cxRepliesFailSecond cxTracker []).memory = [] := by
  have h := failed_run_result_shape "p1" "q" 10 0 [cxService, cxService2] (some cxPlan2)
    cxRepliesFailSecond cxTracker [] rfl
  exact ⟨rfl, h.1, h.2.1, h.2.2.1, h.2.2.2.2⟩

/-- C2 counterexample: in a run whose first step completed (cost 5,
recorded in the shared ledger) and whose second, required step
failed, both steps were attempted (their step started events were
emitted and the first completed), yet the returned result has an
empty `stepResults` list, a zero `totalCost` and no plan, and the
memory is untouched, while the ledger still carries the 5 microSTX
spent. -/
theorem abort_discards_partial_progress :
    OrchEvent.stepStart 0 ∈ (executePipeline "p1" "q" 10 0 [cxService, cxService2] (some cxPlan2) cxRepliesFailSecond cxTracker []).events
    ∧ OrchEvent.stepComplete 0 ∈ (executePipeline "p1" "q" 10 0 [cxService, cxService2] (some cxPlan2) cxRepliesFailSecond cxTracker []).events
    ∧ OrchEvent.stepStart 1 ∈ (executePipeline "p1" "q" 10 0 [cxService, cxService2] (some cxPlan2) cxRepliesFailSecond cxTracker []).events
    ∧ (executePipeline "p1" "q" 10 0 [cxService, cxService2] (some cxPlan2) cxRepliesFailSecond cxTracker []).result.success = false
    ∧ (executePipeline "p1" "q" 10 0 [cxService, cxService2] (some cxPlan2) cxRepliesFailSecond cxTracker []).result.stepResults = []
    ∧ (executePipeline "p1" "q" 10 0 [cxService, cxService2] (some cxPlan2) cxRepliesFailSecond cxTracker []).result.totalCost = 0
    ∧ (executePipeline "p1" "q" 10 0 [cxService, cxService2] (some cxPlan2) cxRepliesFailSecond cxTracker []).result.plan = none
    ∧ (executePipeline "p1" "q" 10 0 [cxService, cxService2] (some cxPlan2) cxRepliesFailSecond cxTracker []).memory = []
    ∧ getTodaySpent (executePipeline "p1" "q" 10 0 [cxService, cxService2] (some cxPlan2) cxRepliesFailSecond cxTracker []).tracker 0 = 5 := by
  refine ⟨?_, ?_, ?_, rfl, rfl, rfl, rfl, rfl, ?_⟩ <;> decide

/-- C3: once a step whose required flag is not `false` emits a step
error in a run, no step started event is emitted for any later index
of that run and the run's result is failed. -/
theorem required_failure_aborts (pid query : String) (now todayStart : Nat)
    (A : List X402Service) (plan : TaskPlan) (R : Nat → PayReply)
    (tracker : SpendingTracker) (memory : List PipelineResult)
    (i : Nat) (msg : String) (step : TaskStep)
    (hMem : OrchEvent.stepError i msg ∈ (executePipeline pid query now todayStart A (some plan) R tracker memory).events)
    (hStep : plan.steps.get? i = some step)
    (hReq : step.required ≠ some false) :
    (executePipeline pid query now todayStart A (some plan) R tracker memory).result.success = false
    ∧ ∀ j, i < j →
        OrchEvent.stepStart j ∉ (executePipeline pid query now todayStart A (some plan) R tracker memory).events := by
  have hInv : ∀ e ∈ (initialRunState pid query tracker).events, eventIdxLt 0 e := by
    intro e he
    simp only [initialRunState, List.mem_cons, List.not_mem_nil, or_false] at he
    subst he
    simp [eventIdxLt]
  have hreq2 : ∀ st, plan.steps.get? (i - 0) = some st → st.required ≠ some false := by
    intro st hst
    rw [Nat.sub_zero, hStep] at hst
    injection hst with hst
    subst hst
    exact hReq
  rcases executePipeline_cases pid query now todayStart A plan R tracker memory _ rfl with
    ⟨msg', hout⟩ | ⟨msg', hout⟩ | ⟨err, hrun, hout⟩ | ⟨hrun, hout⟩
  · rw [hout] at hMem
    exact absurd hMem (List.not_mem_nil _)
  · rw [hout] at hMem
    rcases List.mem_cons.mp hMem with h | h
    · cases h
    · exact absurd h (List.not_mem_nil _)
  · rw [hout] at hMem
    obtain ⟨habort, hnostart⟩ := runSteps_abort A R now plan.steps 0
      (initialRunState pid query tracker) i msg hInv (Nat.zero_le i) hMem hreq2
    rw [hout]
    exact ⟨rfl, fun j hj => hnostart j hj⟩
  · rw [hout] at hMem
    simp only [successOutcome] at hMem
    rcases List.mem_append.mp hMem with h | h
    · obtain ⟨habort, _⟩ := runSteps_abort A R now plan.steps 0
        (initialRunState pid query tracker) i msg hInv (Nat.zero_le i) h hreq2
      rw [hrun] at habort
      cases habort
    · rcases List.mem_cons.mp h with h2 | h2
      · cases h2
      · exact absurd h2 (List.not_mem_nil _)

/-- C3 witness: with the first (required) step failing, the run is
failed and step 2 never starts. -/
theorem required_failure_aborts_witness :
    (executePipeline "p1" "q" 10 0 [cxService, cxService2] (some cxPlan2) cxRepliesFailFirst cxTracker []).result.success = false
    ∧ OrchEvent.stepStart 1 ∉ (executePipeline "p1" "q" 10 0 [cxService, cxService2] (some cxPlan2) cxRepliesFailFirst cxTracker []).events := by
  have h := required_failure_aborts "p1" "q" 10 0 [cxService, cxService2] cxPlan2
    cxRepliesFailFirst cxTracker [] 0 "boom" cxStep1 (by decide) rfl (by decide)
  exact ⟨h.1, h.2 1 (by decide)⟩

/-- C4 (amended): when a required step is started and its Payment
Provider reply reports `success = false` with an error text, the run
fails and the result's top-level error is that text prefixed with
`Required step failed: ` (not the bare provider message the claim
states). -/
theorem required_payment_failure_error (pid query : String) (now todayStart : Nat)
    (A : List X402Service) (plan : TaskPlan) (R : Nat → PayReply)
    (tracker : SpendingTracker) (memory : List PipelineResult)
    (i : Nat) (step : TaskStep) (svc : X402Service) (e : String)
    (hStart : OrchEvent.stepStart i ∈ (executePipeline pid query now todayStart A (some plan) R tracker memory).events)
    (hStep : plan.steps.get? i = some step)
    (hReq : step.required ≠ some false)
    (hFind : A.find? (fun s => s.id == step.serviceId) = some svc)
    (hPay : (R i).payment.success = false)
    (hErr : (R i).payment.error = some e) :
    (executePipeline pid query now todayStart A (some plan) R tracker memory).result.success = false
    ∧ (executePipeline pid query now todayStart A (some plan) R tracker memory).result.error
        = some ("Required step failed: " ++ e) := by
  have hInv : ∀ ev ∈ (initialRunState pid query tracker).events, eventIdxLt 0 ev := by
    intro ev he
    simp only [initialRunState, List.mem_cons, List.not_mem_nil, or_false] at he
    subst he
    simp [eventIdxLt]
  have hfail : stepFailureOf A (R i) step = some e := by
    unfold stepFailureOf
    rw [hFind, hPay, hErr]
    rfl
  have hreq2 : ∀ st, plan.steps.get? (i - 0) = some st → st.required ≠ some false := by
    intro st hst
    rw [Nat.sub_zero, hStep] at hst
    injection hst with hst
    subst hst
    exact hReq
  have hget0 : plan.steps.get? (i - 0) = some step := by
    rw [Nat.sub_zero]
    exact hStep
  rcases executePipeline_cases pid query now todayStart A plan R tracker memory _ rfl with
    ⟨msg', hout⟩ | ⟨msg', hout⟩ | ⟨err, hrun, hout⟩ | ⟨hrun, hout⟩
  · rw [hout] at hStart
    exact absurd hStart (List.not_mem_nil _)
  · rw [hout] at hStart
    rcases List.mem_cons.mp hStart with h | h
    · cases h
    · exact absurd h (List.not_mem_nil _)
  · rw [hout] at hStart
    have hErrMem := runSteps_start_error A R now plan.steps 0
      (initialRunState pid query tracker) i hInv (Nat.zero_le i) hStart step e hget0 hfail
    obtain ⟨habort, _⟩ := runSteps_abort A R now plan.steps 0
      (initialRunState pid query tracker) i e hInv (Nat.zero_le i) hErrMem hreq2
    rw [hrun] at habort
    injection habort with habort
    rw [hout]
    subst habort
    exact ⟨rfl, rfl⟩
  · rw [hout] at hStart
    simp only [successOutcome] at hStart
    rcases List.mem_append.mp hStart with h | h
    · have hErrMem := runSteps_start_error A R now plan.steps 0
        (initialRunState pid query tracker) i hInv (Nat.zero_le i) h step e hget0 hfail
      obtain ⟨habort, _⟩ := runSteps_abort A R now plan.steps 0
        (initialRunState pid query tracker) i e hInv (Nat.zero_le i) hErrMem hreq2
      rw [hrun] at habort
      cases habort
    · rcases List.mem_cons.mp h with h2 | h2
      · cases h2
      · exact absurd h2 (List.not_mem_nil _)

/-- C4 witness: a required step whose payment reply reports
`insufficient balance` fails the run with the prefixed message. -/
theorem required_payment_failure_error_witness :
    (executePipeline "p1" "q" 10 0 [cxService] (some cxPlanOne) cxRepliesInsufficient cxTracker []).result.success = false
    ∧ (executePipeline "p1" "q" 10 0 [cxService] (some cxPlanOne) cxRepliesInsufficient cxTracker []).result.error
        = some ("Required step failed: " ++ "insufficient balance") :=
  required_payment_failure_error "p1" "q" 10 0 [cxService] cxPlanOne cxRepliesInsufficient
    cxTracker [] 0 cxStep1 cxService "insufficient balance" (by decide) rfl (by decide) rfl rfl rfl

/-- C4 counterexample: with the provider reporting exactly
`insufficient balance` on the single required step, the result's
top-level error is `Required step failed: insufficient balance` and
is not the bare message the claim requires. -/
theorem insufficient_balance_error_not_exact :
    (executePipeline "p1" "q" 10 0 [cxService] (some cxPlanOne) cxRepliesInsufficient cxTracker []).result.success = false
    ∧ (executePipeline "p1" "q" 10 0 [cxService] (some cxPlanOne) cxRepliesInsufficient cxTracker []).result.error
        = some "Required step failed: insufficient balance"
    ∧ (executePipeline "p1" "q" 10 0 [cxService] (some cxPlanOne) cxRepliesInsufficient cxTracker []).result.error
        ≠ some "insufficient balance" := by
  refine ⟨rfl, rfl, ?_⟩
  decide

/-! ## Interpolation lemmas -/

theorem takeWhile_word_append (p : Char → Bool) (w : List Char) (c : Char) (r : List Char)
    (hw : ∀ x ∈ w, p x) (hc : p c = false) :
    List.takeWhile p (w ++ c :: r) = w := by
  induction w with
  | nil => simp [List.takeWhile, hc]
  | cons x xs ih =>
    have hx : p x = true := hw x (by simp)
    simp only [List.cons_append, List.takeWhile, hx]
    exact congrArg (x :: ·) (ih fun y hy => hw y (List.mem_cons_of_mem x hy))

theorem dropWhile_word_append (p : Char → Bool) (w : List Char) (c : Char) (r : List Char)
    (hw : ∀ x ∈ w, p x) (hc : p c = false) :
    List.dropWhile p (w ++ c :: r) = c :: r := by
  induction w with
  | nil => simp [List.dropWhile, hc]
  | cons x xs ih =>
    have hx : p x = true := hw x (by simp)
    simp only [List.cons_append, List.dropWhile, hx]
    exact ih fun y hy => hw y (by simp [hy])

theorem scanPH_sound (s w rest : List Char) (h : scanPH s = some (w, rest)) :
    s = w ++ '}' :: '}' :: rest ∧ w ≠ [] ∧ ∀ c ∈ w, isWordChar c := by
  unfold scanPH at h
  split at h
  · next r heq =>
    change (if (List.takeWhile isWordChar s).isEmpty = true then none
      else some (List.takeWhile isWordChar s, r)) = some (w, rest) at h
    by_cases hE : (List.takeWhile isWordChar s).isEmpty = true
    · rw [if_pos hE] at h
      cases h
    · rw [if_neg hE] at h
      injection h with h
      obtain ⟨h1, h2⟩ := Prod.mk.injEq .. ▸ h
      subst h1
      subst h2
      refine ⟨?_, ?_, ?_⟩
      · conv_lhs => rw [← List.takeWhile_append_dropWhile isWordChar s]
        rw [heq]
      · intro hc
        rw [hc] at hE
        exact hE rfl
      · intro c hc
        exact List.mem_takeWhile_imp hc
  · cases h

theorem scanPH_complete (w rest : List Char) (hw : w ≠ [])
    (hword : ∀ c ∈ w, isWordChar c) :
    scanPH (w ++ '}' :: '}' :: rest) = some (w, rest) := by
  have hbr : isWordChar '}' = false := by decide
  unfold scanPH
  rw [takeWhile_word_append isWordChar w _ _ hword hbr,
    dropWhile_word_append isWordChar w _ _ hword hbr]
  simp [hw]

theorem headPH_sound (c1 : Char) (rest1 w rest4 : List Char)
    (h : headPH c1 rest1 = some (w, rest4)) :
    c1 :: rest1 = phText w ++ rest4 ∧ w ≠ [] ∧ ∀ c ∈ w, isWordChar c := by
  unfold headPH at h
  split at h
  · next hc =>
    subst hc
    split at h
    · next c2 rest2 =>
      split at h
      · next hc2 =>
        subst hc2
        obtain ⟨h1, h2, h3⟩ := scanPH_sound rest2 w rest4 h
        subst h1
        exact ⟨by simp [phText], h2, h3⟩
      · cases h
    · cases h
  · cases h

theorem headPH_complete (w rest4 : List Char) (hw : w ≠ [])
    (hword : ∀ c ∈ w, isWordChar c) :
    headPH '{' ('{' :: (w ++ '}' :: '}' :: rest4)) = some (w, rest4) := by
  unfold headPH
  rw [if_pos rfl]
  show (if '{' = '{' then scanPH (w ++ '}' :: '}' :: rest4) else none) = some (w, rest4)
  rw [if_pos rfl]
  exact scanPH_complete w rest4 hw hword

theorem headPH_none_of_not_match (c1 : Char) (rest1 : List Char)
    (h : ¬ matchAtFront (c1 :: rest1)) : headPH c1 rest1 = none := by
  rcases hh : headPH c1 rest1 with _ | ⟨w, rest4⟩
  · rfl
  · exfalso
    obtain ⟨h1, h2, h3⟩ := headPH_sound c1 rest1 w rest4 hh
    exact h ⟨w, rest4, h1, h2, h3⟩

theorem interpF_nil (vars : Vars) (f : Nat) : interpF vars f [] = [] := by
  cases f <;> rfl

theorem interpF_cons_nomatch (vars : Vars) (f : Nat) (c : Char) (t : List Char)
    (h : ¬ matchAtFront (c :: t)) :
    interpF vars (f + 1) (c :: t) = c :: interpF vars f t := by
  simp only [interpF, headPH_none_of_not_match c t h]

theorem interpF_match (vars : Vars) (f : Nat) (w rest : List Char)
    (hw : w ≠ []) (hword : ∀ c ∈ w, isWordChar c) :
    interpF vars (f + 1) (phText w ++ rest) = substFor vars w ++ interpF vars f rest := by
  have hshape : phText w ++ rest = '{' :: '{' :: (w ++ '}' :: '}' :: rest) := by
    simp [phText]
  rw [hshape]
  simp only [interpF, headPH_complete w rest hw hword]

theorem phText_length (w : List Char) : (phText w).length = w.length + 4 := by
  simp [phText]

theorem interpF_congr (vars : Vars) :
    ∀ (n : Nat) (s : List Char) (f1 f2 : Nat),
      s.length ≤ n → s.length ≤ f1 → s.length ≤ f2 →
      interpF vars f1 s = interpF vars f2 s := by
  intro n
  induction n with
  | zero =>
    intro s f1 f2 hn _ _
    have hs : s = [] := List.length_eq_zero.mp (by omega)
    subst hs
    rw [interpF_nil, interpF_nil]
  | succ n ih =>
    intro s f1 f2 hn h1 h2
    rcases s with _ | ⟨c, t⟩
    · rw [interpF_nil, interpF_nil]
    · have hlen : (c :: t).length = t.length + 1 := by simp
      obtain ⟨g1, rfl⟩ := Nat.exists_eq_succ_of_ne_zero (by omega : f1 ≠ 0)
      obtain ⟨g2, rfl⟩ := Nat.exists_eq_succ_of_ne_zero (by omega : f2 ≠ 0)
      by_cases hm : matchAtFront (c :: t)
      · obtain ⟨w, rest, heq, hw, hword⟩ := hm
        have hlen2 : (c :: t).length = w.length + 4 + rest.length := by
          rw [heq]
          simp [phText_length]
        have hwpos : 1 ≤ w.length := by
          rcases w with _ | ⟨x, xs⟩
          · exact absurd rfl hw
          · simp
        rw [heq, interpF_match vars g1 w rest hw hword,
          interpF_match vars g2 w rest hw hword]
        congr 1
        exact ih rest g1 g2 (by omega) (by omega) (by omega)
      · rw [interpF_cons_nomatch vars g1 c t hm, interpF_cons_nomatch vars g2 c t hm]
        congr 1
        exact ih t g1 g2 (by omega) (by omega) (by omega)

theorem noMatchStartingIn_nil (rest : List Char) : noMatchStartingIn [] rest := by
  intro a b hab hb
  have := (List.append_eq_nil.mp hab.symm).2
  exact absurd this hb

theorem noMatchStartingIn_tail (c : Char) (pre rest : List Char)
    (h : noMatchStartingIn (c :: pre) rest) : noMatchStartingIn pre rest := by
  intro a b hab hb
  exact h (c :: a) b (by rw [hab, List.cons_append]) hb

theorem interpolate_append_nomatch (vars : Vars) :
    ∀ (pre rest : List Char), noMatchStartingIn pre rest →
      interpolate vars (pre ++ rest) = pre ++ interpolate vars rest := by
  intro pre
  induction pre with
  | nil => intro rest _; simp
  | cons c pre' ih =>
    intro rest h
    have hnm : ¬ matchAtFront (c :: (pre' ++ rest)) := by
      have := h [] (c :: pre') rfl (by simp)
      simpa using this
    calc interpolate vars ((c :: pre') ++ rest)
        = interpF vars ((pre' ++ rest).length + 1) (c :: (pre' ++ rest)) := by
          simp only [interpolate, List.cons_append, List.length_cons]
      _ = c :: interpF vars ((pre' ++ rest).length) (pre' ++ rest) :=
          interpF_cons_nomatch vars _ c _ hnm
      _ = c :: interpolate vars (pre' ++ rest) := rfl
      _ = c :: (pre' ++ interpolate vars rest) := by
          rw [ih rest (noMatchStartingIn_tail c pre' rest h)]
      _ = (c :: pre') ++ interpolate vars rest := rfl

theorem interpolateList_map (vars : Vars) :
    ∀ xs : List Json, interpolateList vars xs = xs.map (interpolateVariables vars) := by
  intro xs
  induction xs with
  | nil => rfl
  | cons x xs ih => simp only [interpolateList, List.map_cons, ih]

theorem interpolateFields_map (vars : Vars) :
    ∀ fs : List (String × Json),
      interpolateFields vars fs = fs.map fun kv => (kv.1, interpolateVariables vars kv.2) := by
  intro fs
  induction fs with
  | nil => rfl
  | cons kv rest ih =>
    obtain ⟨k, v⟩ := kv
    simp only [interpolateFields, List.map_cons, ih]

/-- C7: interpolation replaces every placeholder in a string payload
(the leftmost placeholder after any placeholder-free literal prefix,
and by the recursion of the first conjunct, every later one) with
`JSON.stringify` of the variable value when the variable is defined
and leaves the placeholder text verbatim when it is undefined, and it
recurses through array elements and object values; it is a total
function, so an unresolved placeholder is never an error. -/
theorem interpolation_spec (vars : Vars) :
    (∀ (pre w post : List Char), w ≠ [] → (∀ c ∈ w, isWordChar c) →
      noMatchStartingIn pre (phText w ++ post) →
      interpolate vars (pre ++ (phText w ++ post))
        = pre ++ (substFor vars w ++ interpolate vars post))
    ∧ (∀ w : List Char, lookupVar vars ⟨w⟩ = none → substFor vars w = phText w)
    ∧ (∀ (w : List Char) (v : Json), lookupVar vars ⟨w⟩ = some v →
        substFor vars w = stringifyJson v)
    ∧ (∀ s : String, s.isEmpty = false →
        interpolateVariables vars (.str s) = .str (interpStr vars s))
    ∧ (∀ xs : List Json,
        interpolateVariables vars (.arr xs) = .arr (xs.map (interpolateVariables vars)))
    ∧ (∀ fs : List (String × Json),
        interpolateVariables vars (.obj fs)
          = .obj (fs.map fun kv => (kv.1, interpolateVariables vars kv.2))) := by
  refine ⟨?_, ?_, ?_, ?_, ?_, ?_⟩
  · intro pre w post hw hword hpre
    rw [interpolate_append_nomatch vars pre (phText w ++ post) hpre]
    congr 1
    unfold interpolate
    rw [show (phText w ++ post).length = (w.length + 3 + post.length) + 1 from by
      simp only [List.length_append, phText_length]
      omega]
    rw [interpF_match vars _ w post hw hword]
    congr 1
    exact interpF_congr vars post.length post _ post.length (le_refl _) (by omega) (le_refl _)
  · intro w h
    unfold substFor
    simp only [h]
  · intro w v h
    unfold substFor
    simp only [h]
  · intro s hs
    simp only [interpolateVariables, hs, Bool.false_eq_true, if_false]
  · intro xs
    simp only [interpolateVariables, interpolateList_map]
  · intro fs
    simp only [interpolateVariables, interpolateFields_map]

/-- C7 witness: Scenario E.  Interpolating the placeholder text for
`lastResult` under the environment where step 1 returned
`(price: 100)` substitutes the JSON-stringified payload. -/
theorem interpolation_spec_witness :
    interpolate scenEVars ([] ++ (phText "lastResult".data ++ []))
      = [] ++ (substFor scenEVars "lastResult".data ++ interpolate scenEVars [])
    ∧ interpStr scenEVars ⟨phText "lastResult".data⟩ = "\x7b\"price\":100\x7d" := by
  refine ⟨(interpolation_spec scenEVars).1 [] "lastResult".data []
    (by decide) (by decide) (noMatchStartingIn_nil _), ?_⟩
  decide

/-- C5 counterexample: the AI tier returns plans with more steps than
the requested cap.  With `maxSteps = 1` and a model answer holding
two steps, `createPlan` returns a 2-step plan. -/
theorem ai_plan_exceeds_step_count :
    createPlan 0 "q" [] [cxService, cxService2] none (some 1) (.ok cxAISpec2)
        = some (createAIPlan 0 "q" [cxService, cxService2] 1 1000000 cxAISpec2)
    ∧ (createAIPlan 0 "q" [cxService, cxService2] 1 1000000 cxAISpec2).steps.length = 2
    ∧ effectiveMaxSteps (some 1) = 1
    ∧ ¬ (createAIPlan 0 "q" [cxService, cxService2] 1 1000000 cxAISpec2).steps.length
        ≤ effectiveMaxSteps (some 1) := by
  refine ⟨rfl, rfl, rfl, ?_⟩
  decide

end Paygent
